import Mathlib

/-!
# HackMatrix: the voxel store, the anchor registry and their instance buffers

A shallow embedding of

* `src/src/world.cpp`: `World::addCube`, `World::getVoxel`, `World::getCubes`,
  `World::size`, `World::attachRenderer`, `World::addAppCube`,
  `World::getAppCubes`, `World::rayCast`;
* `src/src/renderer.cpp`: the instance buffers of `Renderer::fillBuffers`, the
  uploads of `Renderer::addCube` and `Renderer::addAppCube`, and the instance
  attributes of `Renderer::setupVertexAttributePointers`;
* `src/src/controls.cpp`: `debounce` and `Controls::doDeferedActions`;

followed by the properties proved about them.

Conventions of the embedding

* C++ `int` values are modelled as `Int`.  The only arithmetic performed on them
  is `cubeCount++`; signed overflow has no defined behaviour in C++, so the
  counter is modelled on the range where the increment is defined.
* `glm::vec3` components are floats.  Every component the voxel code stores is
  an `int` coordinate converted to float, which is exact below `2^24`; the
  components are modelled as integers.  Anchor positions enter the registry
  only through `==` and as an upload, and are modelled the same way.
* A call that leaves defined behaviour (a cell assigned outside the octree's
  range) is modelled by `Except.error`, carrying the `World` as it is at that
  point.
* Float arguments and double clock values are held as the rationals they denote.
-/

namespace HackMatrix

/-! ## Data model -/

/-- The value type `glm::vec3`, at integer-valued components. -/
structure Vec3 where
  x : Int
  y : Int
  z : Int
deriving DecidableEq, Repr

/-- The record `Cube` as `world.cpp` builds it: `Cube{pos, blockType, orderIndex}`,
with the field `order` read back in `World::getCubes`. -/
structure Cube where
  position : Vec3
  blockType : Int
  order : Int
deriving DecidableEq, Repr

/-- A value-initialised `Cube`, the element `std::vector<Cube> rv(n)` is filled with. -/
def Cube.zero : Cube := ⟨⟨0, 0, 0⟩, 0, 0⟩

/-- The empty value the octree of `World` is constructed with:
`Cube{glm::vec3(0, 0, 0), -1}` (`world.h`, line 47); the remaining field is
value-initialised. -/
def Cube.emptyValue : Cube := ⟨⟨0, 0, 0⟩, -1, 0⟩

/-- Modelled from the spec: the container `Octree<Cube>` of `octree/octree.h`, whose
header is not among the sources.  The spec's voxel store is a sparse index over
the fixed cubic region `[0, N)` per axis, in which a cell holds the empty value
until it is set.  `size` is the edge length `N` given to the constructor, which
is also what the container reports as `size()`. -/
structure Octree (size : Nat) where
  cells : Int × Int × Int → Cube

/-- Modelled from the spec: the constructor `Octree<Cube>(size, emptyValue)` of the
absent octree header.  In the spec's store a cell is empty until it is set:
every cell holds `emptyValue`. -/
def Octree.new (size : Nat) (emptyValue : Cube) : Octree size :=
  ⟨fun _ => emptyValue⟩

/-- Modelled from the spec: the member `size()` of the absent octree header, the
edge length `N` of the spec's fixed cubic region. -/
def Octree.size {n : Nat} (_ : Octree n) : Nat := n

/-- The index range of an octree of edge length `n`: every coordinate in `[0, n)`. -/
def inRange (n : Nat) (x y z : Int) : Prop :=
  (0 ≤ x ∧ x < n) ∧ (0 ≤ y ∧ y < n) ∧ (0 ≤ z ∧ z < n)

instance (n : Nat) (x y z : Int) : Decidable (inRange n x y z) := by
  unfold inRange
  infer_instance

/-- The conversion of a float to `int`, as in `(int)f` and in passing a float
where an `int` is expected: truncation toward zero.  The float is held as the
rational it denotes.  The conversion is defined when the truncated value fits
an `int`; as for the counter, `int` is modelled on the range where it is. -/
def truncToInt (q : ℚ) : Int :=
  if 0 ≤ q then ⌊q⌋ else ⌈q⌉

/-- Modelled from the spec: reading the cell `cubes(x,y,z)` through the accessor of
the absent octree header.  The spec's `get` is a read-only lookup that "returns
nothing for empty or out-of-range cells (out-of-range is not an error here, only
a query miss)": inside the region the stored cube is read, outside it the read
yields nothing (`none`). -/
def Octree.at? {n : Nat} (o : Octree n) (x y z : Int) : Option Cube :=
  if inRange n x y z then some (o.cells (x, y, z)) else none

/-- Modelled from the spec: the assignment `cubes(x,y,z) = cube` through the
accessor of the absent octree header.  The spec's `set` requires coordinates in
`[0, N)` and fails otherwise: outside the region there is no resulting store
(`none`). -/
def Octree.set? {n : Nat} (o : Octree n) (x y z : Int) (cube : Cube) : Option (Octree n) :=
  if inRange n x y z then some ⟨Function.update o.cells (x, y, z) cube⟩ else none

/-! ## The instance buffers of the renderer -/

/-- `sizeof(glm::vec3)`: three 4-byte floats. -/
def sizeofVec3 : Int := 12

/-- `sizeof(int)`. -/
def sizeofInt : Int := 4

/-- What one `glBufferSubData` call of the renderer uploads: a position or an
integer tag. -/
inductive Datum where
  | vec3 (v : Vec3)
  | int (i : Int)
deriving DecidableEq, Repr

/-- A buffer object: its size in bytes and, per byte address, which byte of which
uploaded datum it holds (`none` while the byte was never written). -/
structure GlBuffer where
  size : Int
  mem : Int → Option (Datum × Int)

/-- The call `glBufferData(target, size, (void*)0, usage)`: storage of `size` bytes
with no defined contents. -/
def glBufferData (size : Int) : GlBuffer :=
  ⟨size, fun _ => none⟩

/-- The call `glBufferSubData(target, offset, size, data)`: the bytes
`[offset, offset + size)` receive the datum; when the range does not lie inside
the buffer the call raises `GL_INVALID_VALUE` and writes nothing. -/
def glBufferSubData (b : GlBuffer) (offset size : Int) (d : Datum) : GlBuffer :=
  if 0 ≤ offset ∧ 0 ≤ size ∧ offset + size ≤ b.size then
    { b with mem := fun a => if offset ≤ a ∧ a < offset + size then some (d, a - offset) else b.mem a }
  else b

/-- Reading back `size` bytes at `offset` as one datum: all of them hold the
matching byte of the same datum. -/
def GlBuffer.read (b : GlBuffer) (offset : Int) (size : Nat) : Option Datum :=
  match b.mem offset with
  | none => none
  | some (d, _) =>
    if (List.range size).all (fun k => decide (b.mem (offset + (k : Int)) = some (d, (k : Int)))) then some d
    else none

/-- The two instance buffers of `Renderer` (`INSTANCE` for voxels, `APP_INSTANCE`
for application anchors). -/
structure Renderer where
  INSTANCE : GlBuffer
  APP_INSTANCE : GlBuffer

/-- The instance buffers as `Renderer::fillBuffers` reserves them: room for
200000 voxel records and 20 anchor records. -/
def Renderer.fillBuffers : Renderer :=
  { INSTANCE := glBufferData ((sizeofVec3 + sizeofInt) * 200000)
    APP_INSTANCE := glBufferData ((sizeofVec3 + sizeofInt) * 20) }

/-- The method `Renderer::addCube(index, cube)`: two `glBufferSubData` calls on
`INSTANCE`, the position and then the block type. -/
def Renderer.addCube (r : Renderer) (index : Int) (cube : Cube) : Renderer :=
  let b1 := glBufferSubData r.INSTANCE ((sizeofVec3 + sizeofInt) * index) sizeofVec3
    (Datum.vec3 cube.position)
  let b2 := glBufferSubData b1 (sizeofVec3 * (index + 1) + sizeofInt * index) sizeofInt
    (Datum.int cube.blockType)
  { r with INSTANCE := b2 }

/-- The instance record the vertex attributes of `setupVertexAttributePointers`
fetch for instance `i`: stride `3 * sizeof(float) + sizeof(int)`, the position at
offset 0 and the integer at offset `3 * sizeof(float)`. -/
def Renderer.voxelRecord (r : Renderer) (i : Int) : Option (Vec3 × Int) :=
  match r.INSTANCE.read ((3 * 4 + 1 * 4) * i) 12, r.INSTANCE.read ((3 * 4 + 1 * 4) * i + 3 * 4) 4 with
  | some (Datum.vec3 p), some (Datum.int t) => some (p, t)
  | _, _ => none

/-! ## The world -/

/-- The member `CHUNK_SIZE` of `World`. -/
def CHUNK_SIZE : Nat := 128

/-- The members of `World` the voxel and anchor operations use: the counter
`cubeCount`, the octree `cubes` (edge length 128), the attached `renderer`
(`none` for `NULL`) and the anchor registry `appCubes`.  The registry is a
`std::unordered_map<glm::vec3, int>`, held as the list of its entries: a key
occurs in at most one entry, which `World::addAppCube` maintains. -/
structure World where
  cubeCount : Int
  cubes : Octree 128
  renderer : Option Renderer
  appCubes : List (Vec3 × Int)

/-- A freshly constructed `World`: `cubeCount = 0`, every cell empty, no renderer,
no anchor. -/
def World.empty : World :=
  { cubeCount := 0, cubes := Octree.new 128 Cube.emptyValue, renderer := none, appCubes := [] }

/-- The method `World::attachRenderer`. -/
def World.attachRenderer (w : World) (r : Renderer) : World :=
  { w with renderer := some r }

/-- The method `World::size`. -/
def World.size (w : World) : Int := w.cubeCount

/-- The method `World::addCube(x, y, z, blockType)`.  The counter is incremented
first; then the cell is assigned, which is where an index outside the octree
stops the call; then the record is forwarded to the renderer, if one is
attached. -/
def World.addCube (w : World) (x y z blockType : Int) : Except World World :=
  let orderIndex := w.cubeCount
  let w1 : World := { w with cubeCount := w.cubeCount + 1 }
  let pos : Vec3 := ⟨x, y, z⟩
  let cube : Cube := ⟨pos, blockType, orderIndex⟩
  match w1.cubes.set? x y z cube with
  | none => Except.error w1
  | some cubes =>
    match w1.renderer with
    | none => Except.ok { w1 with cubes := cubes }
    | some r => Except.ok { w1 with cubes := cubes, renderer := some (r.addCube orderIndex cube) }

/-- The method `World::getVoxel(float x, float y, float z)`: the float arguments
are converted to the `int` indices of `cubes(x,y,z)`, the cell is looked up and
returned unless its block type is `-1`; the result `none` stands for `NULL`, which
is also the result when the read yields nothing.  The world is returned
alongside, as the lookup leaves it. -/
def World.getVoxel (w : World) (x y z : ℚ) : World × Option Cube :=
  match w.cubes.at? (truncToInt x) (truncToInt y) (truncToInt z) with
  | none => (w, none)
  | some rv => if rv.blockType ≠ -1 then (w, some rv) else (w, none)

/-- A counting loop `for (int i = 0; i < n; i++) body`, threading the loop state;
`none` once the body left defined behaviour. -/
def forLoop {σ : Type} (n : Nat) (body : Int → σ → Option σ) (s : σ) : Option σ :=
  (List.range n).foldlM (fun acc (i : Nat) => body (i : Int) acc) s

/-- The body of the innermost loop of `World::getCubes`: copy the cell and, when
its block type is not `-1`, store it at `rv[cube.order]`.  An index outside the
vector has no defined behaviour (`none`).  A read that yields nothing stores
nothing; the loops stay inside the region, so it does not occur. -/
def World.getCubesBody (w : World) (x y z : Int) (rv : List Cube) : Option (List Cube) :=
  match w.cubes.at? x y z with
  | none => some rv
  | some cube =>
    if cube.blockType ≠ -1 then
      if 0 ≤ cube.order ∧ cube.order < rv.length then some (rv.set cube.order.toNat cube)
      else none
    else some rv

/-- The method `World::getCubes`: a vector of `cubes.size()` value-initialised
cubes, filled by three nested loops over `[0, CHUNK_SIZE)`. -/
def World.getCubes (w : World) : Option (List Cube) :=
  let rv : List Cube := List.replicate w.cubes.size Cube.zero
  forLoop CHUNK_SIZE (fun x rv =>
    forLoop CHUNK_SIZE (fun y rv =>
      forLoop CHUNK_SIZE (fun z rv => w.getCubesBody x y z rv) rv) rv) rv

/-! ## Vocabulary of the properties -/

/-- One call of `World::addCube`: the arguments `(x, y, z, blockType)`. -/
abbrev Op := Int × Int × Int × Int

/-- The cell an operation targets. -/
def Op.cell (op : Op) : Int × Int × Int := (op.1, op.2.1, op.2.2.1)

/-- A sequence of `World::addCube` calls, stopping at the first call that leaves
defined behaviour. -/
def World.addCubes (w : World) : List Op → Except World World
  | [] => Except.ok w
  | op :: ops =>
    match w.addCube op.1 op.2.1 op.2.2.1 op.2.2.2 with
    | Except.error e => Except.error e
    | Except.ok w1 => World.addCubes w1 ops

/-- The cube stored in a cell. -/
def World.cell (w : World) (c : Int × Int × Int) : Cube := w.cubes.cells c

/-- A cell is occupied when its block type is not the empty sentinel `-1`. -/
def World.occupied (w : World) (c : Int × Int × Int) : Prop := (w.cell c).blockType ≠ -1

instance (w : World) (c : Int × Int × Int) : Decidable (w.occupied c) := by
  unfold World.occupied
  infer_instance

/-- The coordinates of an operation lie in the octree's index range. -/
def Op.inRange (op : Op) : Prop := HackMatrix.inRange 128 op.1 op.2.1 op.2.2.1

instance (op : Op) : Decidable op.inRange := by
  unfold Op.inRange
  infer_instance

/-- The world a sequence of calls starts from: freshly constructed, with the
renderer `r` attached (`none` when no renderer is attached). -/
def World.fresh (r : Option Renderer) : World :=
  { World.empty with renderer := r }

/-- The slot invariant of the store: the counter is not negative, every occupied
cell lies in the index range and carries a slot in `[0, cubeCount)`, and two
occupied cells with the same slot are the same cell. -/
def World.SlotInv (w : World) : Prop :=
  0 ≤ w.cubeCount ∧
  (∀ c : Int × Int × Int, w.occupied c →
    inRange 128 c.1 c.2.1 c.2.2 ∧ 0 ≤ (w.cell c).order ∧ (w.cell c).order < w.cubeCount) ∧
  (∀ c1 c2 : Int × Int × Int, w.occupied c1 → w.occupied c2 →
    (w.cell c1).order = (w.cell c2).order → c1 = c2)

/-- The cells the three nested loops of `World::getCubes` visit, in visiting order
(`x` outermost, `z` innermost); these are all the cells of the store. -/
def coords (n : Nat) : List (Int × Int × Int) :=
  (List.range n).flatMap fun (x : Nat) =>
    (List.range n).flatMap fun (y : Nat) =>
      (List.range n).map fun (z : Nat) => ((x : Int), (y : Int), (z : Int))

/-- The number of occupied cells of the store. -/
def World.occupiedCount (w : World) : Nat :=
  (coords 128).countP (fun c => decide (w.occupied c))

/-- A snapshot of the store in the sense of the specification: exactly the cubes of the
occupied cells and nothing else, listed in strictly ascending slot order (so each
occupied cell contributes one entry). -/
def World.IsSnapshot (w : World) (rv : List Cube) : Prop :=
  (∀ cube : Cube, cube ∈ rv ↔ ∃ c : Int × Int × Int, c ∈ coords 128 ∧ w.occupied c ∧ w.cell c = cube) ∧
  rv.Pairwise (fun a b => a.order < b.order)

/-- The `addCube` call that places a snapshot entry again. -/
def Cube.toOp (cube : Cube) : Op :=
  (cube.position.x, cube.position.y, cube.position.z, cube.blockType)

/-- Reloading a snapshot: `addCube` is replayed on a fresh empty world for each
entry, in the order of the snapshot. -/
def World.replay (snapshot : List Cube) : Except World World :=
  World.empty.addCubes (snapshot.map Cube.toOp)

/-- The mirror invariant: a renderer is attached, its voxel instance buffer has
the size `fillBuffers` reserved, and for every occupied cell whose slot lies below
the 200000 reserved records the record at that slot is the cell's position and
block type. -/
def World.Mirror (w : World) : Prop :=
  ∃ r : Renderer, w.renderer = some r ∧ r.INSTANCE.size = 3200000 ∧
    ∀ c : Int × Int × Int, w.occupied c → (w.cell c).order < 200000 →
      r.voxelRecord (w.cell c).order = some ((w.cell c).position, (w.cell c).blockType)

/-! ## The anchor registry -/

/-- A value-initialised `glm::vec3`, the element `std::vector<glm::vec3> v(n)` is
filled with. -/
def Vec3.zero : Vec3 := ⟨0, 0, 0⟩

/-- The method `Renderer::addAppCube(index, pos)`: two `glBufferSubData` calls on
`APP_INSTANCE`, the position and then the index itself as the integer tag.  (The
line it writes to `cout` is left out.) -/
def Renderer.addAppCube (r : Renderer) (index : Int) (pos : Vec3) : Renderer :=
  let b1 := glBufferSubData r.APP_INSTANCE ((sizeofVec3 + sizeofInt) * index) sizeofVec3
    (Datum.vec3 pos)
  let b2 := glBufferSubData b1 (sizeofVec3 * (index + 1) + sizeofInt * index) sizeofInt
    (Datum.int index)
  { r with APP_INSTANCE := b2 }

/-- The instance record the vertex attributes of `setupVertexAttributePointers`
fetch from `APP_INSTANCE` for instance `i`: the same stride and offsets as for
the voxel records. -/
def Renderer.appRecord (r : Renderer) (i : Int) : Option (Vec3 × Int) :=
  match r.APP_INSTANCE.read ((3 * 4 + 1 * 4) * i) 12,
    r.APP_INSTANCE.read ((3 * 4 + 1 * 4) * i + 3 * 4) 4 with
  | some (Datum.vec3 p), some (Datum.int t) => some (p, t)
  | _, _ => none

/-- The call `m.insert(std::pair<glm::vec3, int>(key, value))` on a
`std::unordered_map`: the entry is added unless the key is present already, in
which case the map stays as it is. -/
def unorderedMapInsert (m : List (Vec3 × Int)) (key : Vec3) (value : Int) : List (Vec3 × Int) :=
  if key ∈ m.map Prod.fst then m else m ++ [(key, value)]

/-- The method `World::addAppCube(cube)`: the index is the number of entries, the
pair is inserted, and the renderer, if attached, is told.  `world.cpp` calls
`renderer->addAppCube(index)` while `renderer.cpp` defines
`addAppCube(int index, glm::vec3 pos)`; the position passed on is the anchor. -/
def World.addAppCube (w : World) (cube : Vec3) : World :=
  let index : Int := (w.appCubes.length : Int)
  let appCubes := unorderedMapInsert w.appCubes cube index
  match w.renderer with
  | none => { w with appCubes := appCubes }
  | some r => { w with appCubes := appCubes, renderer := some (r.addAppCube index cube) }

/-- The loop `for (auto kv : appCubes) appCubeKeys[kv.second] = kv.first;` of
`World::getAppCubes`, over the entries in the order `entries` in which the map
hands them out.  An index outside the vector has no defined behaviour (`none`). -/
def World.getAppCubesLoop (entries : List (Vec3 × Int)) (appCubeKeys : List Vec3) :
    Option (List Vec3) :=
  entries.foldlM (fun keys kv =>
    if 0 ≤ kv.2 ∧ kv.2 < (keys.length : Int) then some (keys.set kv.2.toNat kv.1) else none)
    appCubeKeys

/-- The method `World::getAppCubes`: a vector of `appCubes.size()` value-initialised
positions, filled by the loop over the entries. -/
def World.getAppCubes (w : World) : Option (List Vec3) :=
  World.getAppCubesLoop w.appCubes (List.replicate w.appCubes.length Vec3.zero)

/-- A sequence of `World::addAppCube` calls. -/
def World.addAppCubes (w : World) (ps : List Vec3) : World :=
  ps.foldl World.addAppCube w

/-! ## The layout of an instance record -/

/-- `sizeof(float)`. -/
def sizeofFloat : Int := 4

/-- The stride both instance attributes are declared with in
`setupVertexAttributePointers`: `(3 * sizeof(float)) + (1 * sizeof(int))`. -/
def instanceStride : Int := 3 * sizeofFloat + 1 * sizeofInt

/-- The offset of the instance position attribute (location 2): `(void*)0`. -/
def instancePositionOffset : Int := 0

/-- The offset of the integer instance attribute (location 3):
`(void*)(3 * sizeof(float))`. -/
def instanceTagOffset : Int := 3 * sizeofFloat

/-- The arguments of one `glBufferSubData` call: offset, size and the datum. -/
structure SubDataCall where
  offset : Int
  size : Int
  data : Datum

/-- The `glBufferSubData` calls `Renderer::addCube(index, cube)` issues, in order. -/
def Renderer.addCubeCalls (index : Int) (cube : Cube) : List SubDataCall :=
  [⟨(sizeofVec3 + sizeofInt) * index, sizeofVec3, Datum.vec3 cube.position⟩,
   ⟨sizeofVec3 * (index + 1) + sizeofInt * index, sizeofInt, Datum.int cube.blockType⟩]

/-- The `glBufferSubData` calls `Renderer::addAppCube(index, pos)` issues, in order. -/
def Renderer.addAppCubeCalls (index : Int) (pos : Vec3) : List SubDataCall :=
  [⟨(sizeofVec3 + sizeofInt) * index, sizeofVec3, Datum.vec3 pos⟩,
   ⟨sizeofVec3 * (index + 1) + sizeofInt * index, sizeofInt, Datum.int index⟩]

/-- A list of `glBufferSubData` calls applied to a buffer, in order. -/
def applyCalls (b : GlBuffer) (calls : List SubDataCall) : GlBuffer :=
  calls.foldl (fun buf k => glBufferSubData buf k.offset k.size k.data) b

/-- The first `n` calls of a run that fills the store cell by cell, each with block
type 1: call `i` targets the cell `(i / 128², (i / 128) % 128, i % 128)`. -/
def distinctOps (n : Nat) : List Op :=
  (List.range n).map fun (i : Nat) =>
    (((i / 16384 : Nat) : Int), ((i / 128 % 128 : Nat) : Int), ((i % 128 : Nat) : Int), (1 : Int))

/-- The invariant of the anchor registry: no position occurs in two entries, and
the slot indices of the entries are `0, 1, ..., n - 1` for the `n` entries. -/
def World.RegInv (w : World) : Prop :=
  (w.appCubes.map Prod.fst).Nodup ∧
  w.appCubes.map Prod.snd = (List.range w.appCubes.length).map (fun (i : Nat) => (i : Int))

/-- The anchor positions `(0,0,0), (1,0,0), ..., (n-1,0,0)`. -/
def anchorRow (n : Nat) : List Vec3 :=
  (List.range n).map fun (i : Nat) => ⟨(i : Int), 0, 0⟩

/-! ## Ray casting -/

/-- A `glm::vec3` of the camera: position and direction are continuous, so the
components are modelled as exact rationals. -/
structure QVec3 where
  x : ℚ
  y : ℚ
  z : ℚ
deriving DecidableEq

/-- The members of `Camera` that `World::rayCast` reads. -/
structure Camera where
  position : QVec3
  front : QVec3

/-- The record `Position` of `world.h`. -/
structure Position where
  x : Int
  y : Int
  z : Int
  valid : Bool
  normal : QVec3
deriving DecidableEq

/-- What one call of `World::rayCast` produces: the returned `Position` and the
locals `stepX`, `stepY`, `stepZ` (written to `cout`). -/
structure RayCastRun where
  rv : Position
  stepX : Int
  stepY : Int
  stepZ : Int

/-- The method `World::rayCast(camera)`.  The local `Position rv;` is declared
without an initialiser and no field of it is assigned before `return rv;`, so its
contents are whatever the storage holds: they are the parameter `rv`.  The locals
`voxelSpace`, `x`, `y` and `z` (lines 82 to 85: a float division by `0.1f` and
conversions to `int`) are computed and printed but enter neither the result nor
the steps; they are left out. -/
def World.rayCast (_w : World) (camera : Camera) (rv : Position) : RayCastRun :=
  let stepX : Int := if camera.front.x > 0 then 1 else -1
  let stepY : Int := if camera.front.y > 0 then 1 else -1
  let stepZ : Int := if camera.front.z > 0 then 1 else -1
  { rv := rv, stepX := stepX, stepY := stepY, stepZ := stepZ }

/-! ## Deferred actions and debouncing of `Controls` -/

/-- A `DeferedAction`: the value its shared flag `isDone` holds when
`doDeferedActions` looks at it, and its callback `fn`, named by a number. -/
structure DeferedAction where
  isDone : Bool
  fn : Nat
deriving DecidableEq, Repr

/-- The first loop of `Controls::doDeferedActions`, started at iterator position
`it`: the callbacks run, in order, and the iterators pushed to `toDelete`.  An
iterator of a `std::vector` is held as the position it points to. -/
def Controls.scanDone : Nat → List DeferedAction → List Nat × List Nat
  | _, [] => ([], [])
  | it, a :: rest =>
    if a.isDone then (a.fn :: (Controls.scanDone (it + 1) rest).1, it :: (Controls.scanDone (it + 1) rest).2)
    else Controls.scanDone (it + 1) rest

/-- The call `deferedActions.erase(it)`: the element at the position is removed and
the later ones move down; a position at or past the end has no defined
behaviour (`none`). -/
def vectorErase (v : List DeferedAction) (it : Nat) : Option (List DeferedAction) :=
  if it < v.length then some (v.eraseIdx it) else none

/-- The method `Controls::doDeferedActions` on the member `deferedActions`: the list
left in `deferedActions` and the callbacks run, in order.  The second loop
erases through the iterators collected by the first. -/
def Controls.doDeferedActions (deferedActions : List DeferedAction) :
    Option (List DeferedAction × List Nat) :=
  let scan := Controls.scanDone 0 deferedActions
  match scan.2.foldlM vectorErase deferedActions with
  | none => none
  | some left => some (left, scan.1)

/-- The global `double DEBOUNCE_TIME = 0.1`: the double nearest to one tenth,
`0x1.999999999999ap-4`, as the rational it denotes. -/
def DEBOUNCE_TIME : ℚ := 3602879701896397 / 36028797018963968

/-- The function `debounce(lastTime)`, with `curTime` the value `glfwGetTime()`
returns: the result and the new value of `lastTime`.  Times are doubles, held as
the rationals they denote; `rnd` is the rounding that the double subtraction
applies to the exact difference. -/
def debounce (rnd : ℚ → ℚ) (curTime lastTime : ℚ) : Bool × ℚ :=
  let interval := rnd (curTime - lastTime)
  (decide (interval > DEBOUNCE_TIME), curTime)

/-- Successive calls of `debounce` on the same timestamp variable, one per clock
reading: the results, in order. -/
def debounceCalls (rnd : ℚ → ℚ) (lastTime : ℚ) : List ℚ → List Bool
  | [] => []
  | curTime :: rest =>
    (debounce rnd curTime lastTime).1 :: debounceCalls rnd (debounce rnd curTime lastTime).2 rest

/-! ## Basic facts about `World::addCube` -/

theorem addCube_inRange (w : World) (x y z t : Int) (h : inRange 128 x y z) :
    w.addCube x y z t = Except.ok
      { cubeCount := w.cubeCount + 1
        cubes := ⟨Function.update w.cubes.cells (x, y, z) ⟨⟨x, y, z⟩, t, w.cubeCount⟩⟩
        renderer := w.renderer.map (fun r => r.addCube w.cubeCount ⟨⟨x, y, z⟩, t, w.cubeCount⟩)
        appCubes := w.appCubes } := by
  unfold World.addCube Octree.set?
  simp only [h, if_true]
  cases hr : w.renderer <;> simp

theorem addCube_outOfRange (w : World) (x y z t : Int) (h : ¬ inRange 128 x y z) :
    w.addCube x y z t = Except.error { w with cubeCount := w.cubeCount + 1 } := by
  unfold World.addCube Octree.set?
  simp only [h, if_false]

theorem addCube_ok_inRange {w w1 : World} {x y z t : Int} (h : w.addCube x y z t = Except.ok w1) :
    inRange 128 x y z := by
  by_contra hn
  rw [addCube_outOfRange w x y z t hn] at h
  cases h

theorem addCube_ok_size {w w1 : World} {x y z t : Int} (h : w.addCube x y z t = Except.ok w1) :
    w1.cubeCount = w.cubeCount + 1 := by
  have hr := addCube_ok_inRange h
  rw [addCube_inRange w x y z t hr] at h
  injection h with h
  rw [← h]

theorem addCube_ok_cell {w w1 : World} {x y z t : Int} (h : w.addCube x y z t = Except.ok w1)
    (c : Int × Int × Int) :
    w1.cell c = if c = (x, y, z) then ⟨⟨x, y, z⟩, t, w.cubeCount⟩ else w.cell c := by
  have hr := addCube_ok_inRange h
  rw [addCube_inRange w x y z t hr] at h
  injection h with h
  rw [← h]
  simp only [World.cell, Function.update_apply]

/-- C2 (as stated, refuted): on the empty world, `addCube(0,0,0,1)` called twice assigns
slot 0 and then slot 1, and `size()` ends at 2: the second call does not reuse the
slot and the count grows by two. -/
theorem addCube_twice_counterexample :
    ∃ w1 w2 : World, World.empty.addCube 0 0 0 1 = Except.ok w1 ∧
      w1.addCube 0 0 0 1 = Except.ok w2 ∧
      (w1.cell (0, 0, 0)).order = 0 ∧ (w2.cell (0, 0, 0)).order = 1 ∧
      (w2.cell (0, 0, 0)).order ≠ (w1.cell (0, 0, 0)).order ∧
      w2.size = 2 ∧ w2.size ≠ World.empty.size + 1 := by
  refine ⟨_, _, addCube_inRange _ 0 0 0 1 (by decide), addCube_inRange _ 0 0 0 1 (by decide), ?_⟩
  simp [World.cell, World.size, World.empty]

/-- C2 (amended): for in-range coordinates, `addCube(x,y,z,t)` called twice in a row
assigns the slot `size()` and then the slot `size() + 1`; afterwards the cell holds
position `(x,y,z)`, block type `t` and the second slot, and `size()` has grown by
exactly two. -/
theorem addCube_twice (w : World) (x y z t : Int)
    (hx : 0 ≤ x ∧ x < 128) (hy : 0 ≤ y ∧ y < 128) (hz : 0 ≤ z ∧ z < 128) :
    ∃ w1 w2 : World, w.addCube x y z t = Except.ok w1 ∧ w1.addCube x y z t = Except.ok w2 ∧
      (w1.cell (x, y, z)).order = w.size ∧
      w2.cell (x, y, z) = ⟨⟨x, y, z⟩, t, w.size + 1⟩ ∧
      w2.size = w.size + 2 := by
  have hr : inRange 128 x y z := ⟨hx, hy, hz⟩
  refine ⟨_, _, addCube_inRange _ x y z t hr, addCube_inRange _ x y z t hr, ?_⟩
  simp [World.cell, World.size]
  omega

/-- Instance of the amended C2: the cell `(2,3,4)` placed twice on the empty world. -/
theorem addCube_twice_witness :
    (0 ≤ (2 : Int) ∧ (2 : Int) < 128) ∧ (0 ≤ (3 : Int) ∧ (3 : Int) < 128) ∧
    (0 ≤ (4 : Int) ∧ (4 : Int) < 128) ∧
    ∃ w1 w2 : World, World.empty.addCube 2 3 4 1 = Except.ok w1 ∧
      w1.addCube 2 3 4 1 = Except.ok w2 ∧
      (w1.cell (2, 3, 4)).order = 0 ∧
      w2.cell (2, 3, 4) = ⟨⟨2, 3, 4⟩, 1, 0 + 1⟩ ∧
      w2.size = 0 + 2 :=
  ⟨by decide, by decide, by decide,
    addCube_twice World.empty 2 3 4 1 (by decide) (by decide) (by decide)⟩

/-- C3: a call of `addCube` on a cell that is currently empty assigns the slot
`size()` had before the call and leaves `size()` one larger, so a following
insertion into an empty cell receives a strictly larger slot; and from the empty
world `addCube(2,3,4,1)` gets slot 0 and then `addCube(2,3,5,2)` gets slot 1. -/
theorem addCube_empty_cell_slot :
    (∀ (w : World) (x y z t : Int), inRange 128 x y z → ¬ w.occupied (x, y, z) →
      ∃ w1 : World, w.addCube x y z t = Except.ok w1 ∧
        (w1.cell (x, y, z)).order = w.size ∧ w1.size = w.size + 1 ∧
        ∀ (x2 y2 z2 t2 : Int), inRange 128 x2 y2 z2 → ¬ w1.occupied (x2, y2, z2) →
          ∃ w2 : World, w1.addCube x2 y2 z2 t2 = Except.ok w2 ∧
            (w1.cell (x, y, z)).order < (w2.cell (x2, y2, z2)).order) ∧
    (∃ w1 w2 : World, World.empty.addCube 2 3 4 1 = Except.ok w1 ∧
      w1.addCube 2 3 5 2 = Except.ok w2 ∧
      (w1.cell (2, 3, 4)).order = 0 ∧ (w2.cell (2, 3, 5)).order = 1 ∧
      (w2.cell (2, 3, 4)).order = 0) := by
  constructor
  · intro w x y z t hr _
    refine ⟨_, addCube_inRange w x y z t hr, ?_, ?_, ?_⟩
    · simp [World.cell, World.size]
    · simp [World.size]
    · intro x2 y2 z2 t2 hr2 _
      refine ⟨_, addCube_inRange _ x2 y2 z2 t2 hr2, ?_⟩
      simp [World.cell]
  · refine ⟨_, _, addCube_inRange _ 2 3 4 1 (by decide), addCube_inRange _ 2 3 5 2 (by decide), ?_⟩
    simp [World.cell, World.empty]

/-- Instance of C3: `(2,3,4)` and then `(2,3,5)` placed on the empty world. -/
theorem addCube_empty_cell_slot_witness :
    inRange 128 2 3 4 ∧ ¬ World.empty.occupied (2, 3, 4) ∧ inRange 128 2 3 5 ∧
    ∃ w1 : World, World.empty.addCube 2 3 4 1 = Except.ok w1 ∧
      (w1.cell (2, 3, 4)).order = 0 ∧ w1.size = 0 + 1 ∧ ¬ w1.occupied (2, 3, 5) ∧
      ∃ w2 : World, w1.addCube 2 3 5 2 = Except.ok w2 ∧
        (w1.cell (2, 3, 4)).order < (w2.cell (2, 3, 5)).order := by
  obtain ⟨w1, h1, hslot, hsize, hnext⟩ :=
    addCube_empty_cell_slot.1 World.empty 2 3 4 1 (by decide) (by decide)
  have hfree : ¬ w1.occupied (2, 3, 5) := by
    intro ho
    apply ho
    rw [addCube_ok_cell h1 (2, 3, 5), if_neg (by decide)]
    rfl
  exact ⟨by decide, by decide, by decide, w1, h1, hslot, hsize, hfree,
    hnext 2 3 5 2 (by decide) hfree⟩

/-- C8 (as stated, refuted): on the empty world `addCube(128,0,0,1)` does not leave
`size()` unchanged: the call stops at the octree access with the counter already
incremented to 1. -/
theorem addCube_outOfBounds_counterexample :
    ¬ inRange 128 128 0 0 ∧
    ∃ e : World, World.empty.addCube 128 0 0 1 = Except.error e ∧
      e.size = 1 ∧ e.size ≠ World.empty.size := by
  refine ⟨by decide, _, addCube_outOfRange _ 128 0 0 1 (by decide), ?_⟩
  simp [World.size, World.empty]

/-- C8 (amended): for coordinates with some component outside `[0,128)`, `addCube`
makes no bounds check of its own and returns no `OutOfBounds` value: it increments
the counter and then indexes the octree outside its range, where the call stops.
At that point the store contents and the attached renderer (with its instance
buffer) are unchanged and `size()` is one larger than before. -/
theorem addCube_outOfBounds (w : World) (x y z t : Int) (h : ¬ inRange 128 x y z) :
    ∃ e : World, w.addCube x y z t = Except.error e ∧
      e.cubes = w.cubes ∧ e.renderer = w.renderer ∧ e.size = w.size + 1 :=
  ⟨_, addCube_outOfRange w x y z t h, rfl, rfl, rfl⟩

/-- Instance of the amended C8: the coordinates `(-1,0,200)`. -/
theorem addCube_outOfBounds_witness :
    ¬ inRange 128 (-1) 0 200 ∧
    ∃ e : World, World.empty.addCube (-1) 0 200 7 = Except.error e ∧
      e.cubes = World.empty.cubes ∧ e.renderer = World.empty.renderer ∧
      e.size = World.empty.size + 1 :=
  ⟨by decide, addCube_outOfBounds World.empty (-1) 0 200 7 (by decide)⟩

/-! ## Sequences of calls and the slot invariant -/

theorem addCubes_nil (w : World) : w.addCubes [] = Except.ok w := rfl

theorem addCubes_cons_ok {w w1 : World} {op : Op} (ops : List Op)
    (h : w.addCube op.1 op.2.1 op.2.2.1 op.2.2.2 = Except.ok w1) :
    w.addCubes (op :: ops) = w1.addCubes ops := by
  simp only [World.addCubes, h]

theorem addCubes_cons_inv {w w2 : World} {op : Op} {ops : List Op}
    (h : w.addCubes (op :: ops) = Except.ok w2) :
    ∃ w1, w.addCube op.1 op.2.1 op.2.2.1 op.2.2.2 = Except.ok w1 ∧ w1.addCubes ops = Except.ok w2 := by
  simp only [World.addCubes] at h
  cases h1 : w.addCube op.1 op.2.1 op.2.2.1 op.2.2.2 with
  | error e => rw [h1] at h; cases h
  | ok w1 => rw [h1] at h; exact ⟨w1, rfl, h⟩

theorem addCubes_inRange (ops : List Op) (w : World) (h : ∀ op ∈ ops, op.inRange) :
    ∃ w1, w.addCubes ops = Except.ok w1 := by
  induction ops generalizing w with
  | nil => exact ⟨w, rfl⟩
  | cons op ops ih =>
    have hop : inRange 128 op.1 op.2.1 op.2.2.1 := h op (List.mem_cons_self _ _)
    rw [addCubes_cons_ok ops (addCube_inRange w _ _ _ _ hop)]
    exact ih _ (fun o ho => h o (List.mem_cons_of_mem _ ho))

theorem addCubes_size (ops : List Op) {w w1 : World} (h : w.addCubes ops = Except.ok w1) :
    w1.cubeCount = w.cubeCount + ops.length := by
  induction ops generalizing w with
  | nil => cases h; simp
  | cons op ops ih =>
    obtain ⟨wm, h1, h2⟩ := addCubes_cons_inv h
    rw [ih h2, addCube_ok_size h1]
    simp only [List.length_cons, Nat.cast_add, Nat.cast_one]
    omega

theorem slotInv_fresh (r : Option Renderer) : (World.fresh r).SlotInv := by
  refine ⟨by simp [World.fresh, World.empty], ?_, ?_⟩
  · intro c hc
    exact absurd rfl hc
  · intro c1 _ hc
    exact absurd rfl hc

theorem slotInv_addCube {w w1 : World} {x y z t : Int} (hw : w.SlotInv)
    (h : w.addCube x y z t = Except.ok w1) : w1.SlotInv := by
  obtain ⟨h0, hb, hu⟩ := hw
  have hr := addCube_ok_inRange h
  have hs := addCube_ok_size h
  have hc := addCube_ok_cell h
  have hocc : ∀ c, c ≠ (x, y, z) → w1.occupied c → w.occupied c := by
    intro c hne ho
    simpa [World.occupied, hc c, hne] using ho
  refine ⟨by omega, ?_, ?_⟩
  · intro c ho
    by_cases hcx : c = (x, y, z)
    · subst hcx
      rw [hc]
      simp only [if_true]
      exact ⟨hr, h0, by omega⟩
    · have := hb c (hocc c hcx ho)
      rw [hc c, if_neg hcx]
      exact ⟨this.1, this.2.1, by omega⟩
  · intro c1 c2 ho1 ho2 heq
    by_cases h1 : c1 = (x, y, z) <;> by_cases h2 : c2 = (x, y, z)
    · rw [h1, h2]
    · exfalso
      have := (hb c2 (hocc c2 h2 ho2)).2.2
      rw [hc c1, hc c2, if_pos h1, if_neg h2] at heq
      simp only at heq
      omega
    · exfalso
      have := (hb c1 (hocc c1 h1 ho1)).2.2
      rw [hc c1, hc c2, if_neg h1, if_pos h2] at heq
      simp only at heq
      omega
    · rw [hc c1, hc c2, if_neg h1, if_neg h2] at heq
      exact hu c1 c2 (hocc c1 h1 ho1) (hocc c2 h2 ho2) heq

theorem slotInv_addCubes (ops : List Op) {w w1 : World} (hw : w.SlotInv)
    (h : w.addCubes ops = Except.ok w1) : w1.SlotInv := by
  induction ops generalizing w with
  | nil => cases h; exact hw
  | cons op ops ih =>
    obtain ⟨wm, h1, h2⟩ := addCubes_cons_inv h
    exact ih (slotInv_addCube hw h1) h2

/-- C4: in every world reached from the empty world (with or without a renderer
attached) by a sequence of `addCube` calls with in-range coordinates, overwrites
included, no two distinct non-empty cells carry the same slot index, and every
stored slot index of a non-empty cell is smaller than `size()`. -/
theorem slot_unique_and_bounded (r : Option Renderer) (ops : List Op)
    (hops : ∀ op ∈ ops, op.inRange) :
    ∃ w : World, (World.fresh r).addCubes ops = Except.ok w ∧
      (∀ c1 c2 : Int × Int × Int, w.occupied c1 → w.occupied c2 → c1 ≠ c2 →
        (w.cell c1).order ≠ (w.cell c2).order) ∧
      (∀ c : Int × Int × Int, w.occupied c → (w.cell c).order < w.size) := by
  obtain ⟨w, hw⟩ := addCubes_inRange ops (World.fresh r) hops
  obtain ⟨_, hb, hu⟩ := slotInv_addCubes ops (slotInv_fresh r) hw
  exact ⟨w, hw, fun c1 c2 h1 h2 hne heq => hne (hu c1 c2 h1 h2 heq), fun c hc => (hb c hc).2.2⟩

/-- Instance of C4: three calls, the third overwriting the first cell. -/
theorem slot_unique_and_bounded_witness :
    (∀ op ∈ [((2, 3, 4, 1) : Op), (2, 3, 5, 2), (2, 3, 4, 3)], Op.inRange op) ∧
    ∃ w : World,
      (World.fresh none).addCubes [((2, 3, 4, 1) : Op), (2, 3, 5, 2), (2, 3, 4, 3)] = Except.ok w ∧
      (∀ c1 c2 : Int × Int × Int, w.occupied c1 → w.occupied c2 → c1 ≠ c2 →
        (w.cell c1).order ≠ (w.cell c2).order) ∧
      (∀ c : Int × Int × Int, w.occupied c → (w.cell c).order < w.size) :=
  ⟨by decide, slot_unique_and_bounded none _ (by decide)⟩

/-! ## The cells visited by `World::getCubes` -/

theorem mem_coords (n : Nat) (c : Int × Int × Int) :
    c ∈ coords n ↔ inRange n c.1 c.2.1 c.2.2 := by
  obtain ⟨x, y, z⟩ := c
  simp only [coords, List.mem_flatMap, List.mem_map, List.mem_range, inRange, Prod.mk.injEq]
  constructor
  · rintro ⟨a, ha, b, hb, d, hd, rfl, rfl, rfl⟩
    omega
  · rintro ⟨⟨hx0, hx⟩, ⟨hy0, hy⟩, ⟨hz0, hz⟩⟩
    exact ⟨x.toNat, by omega, y.toNat, by omega, z.toNat, by omega, by omega, by omega, by omega⟩

theorem nodup_coords (n : Nat) : (coords n).Nodup := by
  unfold coords
  rw [List.nodup_flatMap]
  constructor
  · intro x _
    rw [List.nodup_flatMap]
    constructor
    · intro y _
      refine (List.nodup_range n).map ?_
      intro a b hab
      simpa using hab
    · refine (List.nodup_range n).imp ?_
      intro a b hab
      simp only [Function.onFun, List.disjoint_left, List.mem_map, List.mem_range]
      rintro c ⟨d, _, rfl⟩ ⟨e, _, he⟩
      simp only [Prod.mk.injEq] at he
      omega
  · refine (List.nodup_range n).imp ?_
    intro a b hab
    simp only [Function.onFun, List.disjoint_left, List.mem_flatMap, List.mem_map, List.mem_range]
    rintro c ⟨y, _, d, _, rfl⟩ ⟨y2, _, e, _, he⟩
    simp only [Prod.mk.injEq] at he
    omega

theorem foldlM_flatMap_option {α β σ : Type} (f : α → List β) (g : σ → β → Option σ)
    (l : List α) (s : σ) :
    (l.flatMap f).foldlM g s = l.foldlM (fun acc a => (f a).foldlM g acc) s := by
  induction l generalizing s with
  | nil => rfl
  | cons a l ih =>
    rw [List.flatMap_cons, List.foldlM_append, List.foldlM_cons]
    cases h : (f a).foldlM g s with
    | none => rfl
    | some s1 => exact ih s1

theorem getCubes_eq_foldlM (w : World) :
    w.getCubes = (coords 128).foldlM (fun rv c => w.getCubesBody c.1 c.2.1 c.2.2 rv)
      (List.replicate 128 Cube.zero) := by
  unfold World.getCubes forLoop coords CHUNK_SIZE
  rw [foldlM_flatMap_option]
  simp only [foldlM_flatMap_option, List.foldlM_map, Octree.size]

/-! ## What `World::getCubes` computes -/

theorem getCubesBody_inRange (w : World) (c : Int × Int × Int) (rv : List Cube)
    (h : inRange 128 c.1 c.2.1 c.2.2) :
    w.getCubesBody c.1 c.2.1 c.2.2 rv =
      if w.occupied c then
        (if 0 ≤ (w.cell c).order ∧ (w.cell c).order < rv.length then
          some (rv.set (w.cell c).order.toNat (w.cell c)) else none)
      else some rv := by
  simp only [World.getCubesBody, Octree.at?, h, if_true, World.occupied, World.cell]

theorem getCubes_fold (w : World)
    (hu : ∀ c1 c2 : Int × Int × Int, w.occupied c1 → w.occupied c2 →
      (w.cell c1).order = (w.cell c2).order → c1 = c2) :
    ∀ (l : List (Int × Int × Int)) (rv : List Cube), l.Nodup →
      (∀ c ∈ l, inRange 128 c.1 c.2.1 c.2.2) →
      (∀ c ∈ l, w.occupied c → 0 ≤ (w.cell c).order ∧ (w.cell c).order < rv.length) →
      ∃ out : List Cube,
        l.foldlM (fun rv c => w.getCubesBody c.1 c.2.1 c.2.2 rv) rv = some out ∧
        out.length = rv.length ∧
        (∀ c ∈ l, w.occupied c → out[(w.cell c).order.toNat]? = some (w.cell c)) ∧
        (∀ i : Nat, (∀ c ∈ l, w.occupied c → (w.cell c).order ≠ i) → out[i]? = rv[i]?) := by
  intro l
  induction l with
  | nil =>
    intro rv _ _ _
    exact ⟨rv, rfl, rfl, fun c hc => absurd hc (List.not_mem_nil c), fun _ _ => rfl⟩
  | cons a l ih =>
    intro rv hnd hin hb
    have hal : a ∉ l := (List.nodup_cons.mp hnd).1
    have hndl : l.Nodup := (List.nodup_cons.mp hnd).2
    have hinl : ∀ c ∈ l, inRange 128 c.1 c.2.1 c.2.2 := fun c hc => hin c (List.mem_cons_of_mem _ hc)
    rw [List.foldlM_cons, getCubesBody_inRange w a rv (hin a (List.mem_cons_self _ _))]
    by_cases ha : w.occupied a
    · have hba := hb a (List.mem_cons_self _ _) ha
      rw [if_pos ha, if_pos hba]
      have hbl : ∀ c ∈ l, w.occupied c →
          0 ≤ (w.cell c).order ∧ (w.cell c).order < (rv.set (w.cell a).order.toNat (w.cell a)).length := by
        intro c hc ho
        rw [List.length_set]
        exact hb c (List.mem_cons_of_mem _ hc) ho
      obtain ⟨out, hf, hlen, hocc, hrest⟩ := ih (rv.set (w.cell a).order.toNat (w.cell a)) hndl hinl hbl
      refine ⟨out, hf, by rw [hlen, List.length_set], ?_, ?_⟩
      · intro c hc ho
        rcases List.mem_cons.mp hc with rfl | hcl
        · have hne : ∀ c2 ∈ l, w.occupied c2 → (w.cell c2).order ≠ ((w.cell c).order.toNat : Int) := by
            intro c2 hc2 ho2 heq
            have : c2 = c := hu c2 c ho2 ho (by omega)
            exact hal (this ▸ hc2)
          rw [hrest _ hne, List.getElem?_set_self (by omega)]
        · exact hocc c hcl ho
      · intro i hi
        rw [hrest i (fun c hc ho => hi c (List.mem_cons_of_mem _ hc) ho)]
        have := hi a (List.mem_cons_self _ _) ha
        rw [List.getElem?_set_ne (by omega)]
    · rw [if_neg ha]
      obtain ⟨out, hf, hlen, hocc, hrest⟩ :=
        ih rv hndl hinl (fun c hc ho => hb c (List.mem_cons_of_mem _ hc) ho)
      refine ⟨out, hf, hlen, ?_, ?_⟩
      · intro c hc ho
        rcases List.mem_cons.mp hc with rfl | hcl
        · exact absurd ho ha
        · exact hocc c hcl ho
      · intro i hi
        exact hrest i (fun c hc ho => hi c (List.mem_cons_of_mem _ hc) ho)

theorem getCubes_spec (w : World) (hw : w.SlotInv) (hsize : w.cubeCount ≤ 128) :
    ∃ rv : List Cube, w.getCubes = some rv ∧ rv.length = 128 ∧
      (∀ c : Int × Int × Int, w.occupied c → rv[(w.cell c).order.toNat]? = some (w.cell c)) ∧
      (∀ i : Nat, i < 128 → (∀ c : Int × Int × Int, w.occupied c → (w.cell c).order ≠ i) →
        rv[i]? = some Cube.zero) := by
  obtain ⟨_, hb, hu⟩ := hw
  obtain ⟨out, hf, hlen, hocc, hrest⟩ := getCubes_fold w hu (coords 128)
    (List.replicate 128 Cube.zero) (nodup_coords 128) (fun c hc => (mem_coords 128 c).mp hc)
    (fun c _ ho => by
      have := hb c ho
      rw [List.length_replicate]
      exact ⟨this.2.1, by omega⟩)
  refine ⟨out, by rw [getCubes_eq_foldlM, hf], by rw [hlen, List.length_replicate], ?_, ?_⟩
  · intro c ho
    exact hocc c ((mem_coords 128 c).mpr (hb c ho).1) ho
  · intro i hi hfree
    rw [hrest i (fun c _ ho => hfree c ho), List.getElem?_replicate_of_lt hi]

/-! ## Counting occupied cells -/

theorem countP_update_point {α : Type} (p q : α → Bool) (a : α) :
    ∀ l : List α, l.Nodup → a ∈ l → (∀ x, x ≠ a → q x = p x) →
      l.countP q + (if p a then 1 else 0) = l.countP p + (if q a then 1 else 0) := by
  intro l
  induction l with
  | nil => intro _ ha; exact absurd ha (List.not_mem_nil a)
  | cons b l ih =>
    intro hnd ha hpq
    obtain ⟨hbl, hndl⟩ := List.nodup_cons.mp hnd
    rw [List.countP_cons, List.countP_cons]
    by_cases hba : b = a
    · subst hba
      have hcong : l.countP q = l.countP p := by
        apply List.countP_congr
        intro x hx
        have hxb : x ≠ b := fun h => hbl (h ▸ hx)
        rw [hpq x hxb]
      rw [hcong]
      omega
    · have hal : a ∈ l := by
        rcases List.mem_cons.mp ha with h | h
        · exact absurd h.symm hba
        · exact h
      have := ih hndl hal hpq
      rw [hpq b hba]
      omega

theorem occupiedCount_addCube {w w1 : World} {x y z t : Int}
    (h : w.addCube x y z t = Except.ok w1) :
    w1.occupiedCount + (if w.occupied (x, y, z) then 1 else 0) =
      w.occupiedCount + (if t ≠ -1 then 1 else 0) := by
  have hr := addCube_ok_inRange h
  have hc := addCube_ok_cell h
  have key := countP_update_point (fun c => decide (w.occupied c)) (fun c => decide (w1.occupied c))
    (x, y, z) (coords 128) (nodup_coords 128) ((mem_coords 128 _).mpr hr)
    (by
      intro c hne
      simp only [World.occupied, hc c, if_neg hne])
  have h1 : w1.occupied (x, y, z) ↔ t ≠ -1 := by
    simp only [World.occupied, hc (x, y, z), if_true]
  simp only [decide_eq_true_eq] at key
  unfold World.occupiedCount
  by_cases ht : t ≠ -1
  · rw [if_pos (h1.mpr ht)] at key
    rw [if_pos ht]
    exact key
  · rw [if_neg (fun hh => ht (h1.mp hh))] at key
    rw [if_neg ht]
    exact key

theorem occupiedCount_fresh (r : Option Renderer) : (World.fresh r).occupiedCount = 0 := by
  unfold World.occupiedCount
  rw [List.countP_eq_zero]
  intro c _
  simp only [decide_eq_true_eq]
  intro ho
  exact ho rfl

theorem occupiedCount_addCubes_le (ops : List Op) {w w1 : World}
    (h : w.addCubes ops = Except.ok w1) : w1.occupiedCount ≤ w.occupiedCount + ops.length := by
  induction ops generalizing w with
  | nil => cases h; simp
  | cons op ops ih =>
    obtain ⟨wm, h1, h2⟩ := addCubes_cons_inv h
    have hstep := occupiedCount_addCube h1
    have := ih h2
    simp only [List.length_cons]
    split_ifs at hstep <;> omega

theorem occupiedCount_addCubes_distinct (ops : List Op) {w w1 : World}
    (h : w.addCubes ops = Except.ok w1) (hnd : (ops.map Op.cell).Nodup)
    (ht : ∀ op ∈ ops, op.2.2.2 ≠ -1) (hfree : ∀ op ∈ ops, ¬ w.occupied (Op.cell op)) :
    w1.occupiedCount = w.occupiedCount + ops.length := by
  induction ops generalizing w with
  | nil => cases h; simp
  | cons op ops ih =>
    obtain ⟨wm, h1, h2⟩ := addCubes_cons_inv h
    have hstep := occupiedCount_addCube h1
    rw [List.map_cons, List.nodup_cons] at hnd
    have hfree1 : ∀ o ∈ ops, ¬ wm.occupied (Op.cell o) := by
      intro o ho hocc
      have hne : Op.cell o ≠ (op.1, op.2.1, op.2.2.1) := by
        intro heq
        have hmem : Op.cell o ∈ ops.map Op.cell := List.mem_map_of_mem Op.cell ho
        rw [heq] at hmem
        exact hnd.1 hmem
      apply hfree o (List.mem_cons_of_mem _ ho)
      simpa only [World.occupied, addCube_ok_cell h1 (Op.cell o), if_neg hne] using hocc
    have := ih h2 hnd.2 (fun o ho => ht o (List.mem_cons_of_mem _ ho)) hfree1
    have hop : ¬ w.occupied (op.1, op.2.1, op.2.2.1) := hfree op (List.mem_cons_self _ _)
    rw [if_neg hop, if_pos (ht op (List.mem_cons_self _ _))] at hstep
    simp only [List.length_cons]
    omega

/-- C7 (as stated, refuted): after `addCube(0,0,0,1)` twice on the empty world `size()`,
the instance count of the voxel draw, is 2 while one cell is occupied. -/
theorem size_occupiedCount_counterexample :
    ∃ w : World, (World.fresh none).addCubes [((0, 0, 0, 1) : Op), (0, 0, 0, 1)] = Except.ok w ∧
      w.size = 2 ∧ w.occupiedCount = 1 ∧ w.size ≠ (w.occupiedCount : Int) := by
  obtain ⟨w, hw⟩ := addCubes_inRange [((0, 0, 0, 1) : Op), (0, 0, 0, 1)] (World.fresh none)
    (by decide)
  have hsize : w.size = 2 := by
    unfold World.size
    rw [addCubes_size _ hw]
    rfl
  obtain ⟨w1, h1, h12⟩ := addCubes_cons_inv hw
  obtain ⟨w2, h2, h22⟩ := addCubes_cons_inv h12
  cases h22
  have h1c : (World.fresh none).addCube 0 0 0 1 = Except.ok w1 := h1
  have h2c : w1.addCube 0 0 0 1 = Except.ok w := h2
  have hocc1 : w1.occupied (0, 0, 0) := by
    simp only [World.occupied, addCube_ok_cell h1c (0, 0, 0)]
    decide
  have hfree0 : ¬ (World.fresh none).occupied (0, 0, 0) := fun ho => ho rfl
  have s1 := occupiedCount_addCube h1c
  have s2 := occupiedCount_addCube h2c
  rw [occupiedCount_fresh, if_neg hfree0, if_pos (by decide)] at s1
  rw [if_pos hocc1, if_pos (by decide)] at s2
  have hcnt : w.occupiedCount = 1 := by omega
  refine ⟨w, hw, hsize, hcnt, ?_⟩
  rw [hsize, hcnt]
  decide

/-- C7 (amended): in every state reached by a sequence of in-range `addCube` calls,
`size()` (the instance count `Renderer::render` passes to the voxel draw) equals
the number of calls made, an overwrite counting again, and so is at least the
number of occupied cells; it equals the number of occupied cells when the calls
targeted pairwise distinct cells with block types other than `-1`. -/
theorem size_counts_calls (r : Option Renderer) (ops : List Op)
    (hops : ∀ op ∈ ops, Op.inRange op) :
    ∃ w : World, (World.fresh r).addCubes ops = Except.ok w ∧
      w.size = ops.length ∧ (w.occupiedCount : Int) ≤ w.size ∧
      ((ops.map Op.cell).Nodup → (∀ op ∈ ops, op.2.2.2 ≠ -1) →
        w.size = (w.occupiedCount : Int)) := by
  obtain ⟨w, hw⟩ := addCubes_inRange ops (World.fresh r) hops
  have hsize : w.size = ops.length := by
    unfold World.size
    rw [addCubes_size ops hw]
    simp [World.fresh, World.empty]
  have hle := occupiedCount_addCubes_le ops hw
  rw [occupiedCount_fresh] at hle
  refine ⟨w, hw, hsize, by omega, ?_⟩
  intro hnd ht
  have := occupiedCount_addCubes_distinct ops hw hnd ht (fun op _ ho => ho rfl)
  rw [occupiedCount_fresh] at this
  omega

/-- Instance of the amended C7: two calls on distinct cells. -/
theorem size_counts_calls_witness :
    (∀ op ∈ [((2, 3, 4, 1) : Op), (2, 3, 5, 2)], Op.inRange op) ∧
    ([((2, 3, 4, 1) : Op), (2, 3, 5, 2)].map Op.cell).Nodup ∧
    (∀ op ∈ [((2, 3, 4, 1) : Op), (2, 3, 5, 2)], op.2.2.2 ≠ -1) ∧
    ∃ w : World, (World.fresh none).addCubes [((2, 3, 4, 1) : Op), (2, 3, 5, 2)] = Except.ok w ∧
      w.size = 2 ∧ (w.occupiedCount : Int) ≤ w.size ∧ w.size = (w.occupiedCount : Int) :=
  ⟨by decide, by decide, by decide,
    (size_counts_calls none [((2, 3, 4, 1) : Op), (2, 3, 5, 2)] (by decide)).elim
      fun w h => ⟨w, h.1, h.2.1, h.2.2.1, h.2.2.2 (by decide) (by decide)⟩⟩

/-! ## The cells after a sequence of calls -/

theorem addCubes_cell_untouched (ops : List Op) {w w1 : World}
    (h : w.addCubes ops = Except.ok w1) (c : Int × Int × Int) (hc : c ∉ ops.map Op.cell) :
    w1.cell c = w.cell c := by
  induction ops generalizing w with
  | nil => cases h; rfl
  | cons op ops ih =>
    obtain ⟨wm, h1, h2⟩ := addCubes_cons_inv h
    rw [List.map_cons, List.mem_cons, not_or] at hc
    have hne : ¬ c = (op.1, op.2.1, op.2.2.1) := hc.1
    rw [ih h2 hc.2, addCube_ok_cell h1 c, if_neg hne]

theorem addCubes_cell_distinct (ops : List Op) {w w1 : World}
    (h : w.addCubes ops = Except.ok w1) (hnd : (ops.map Op.cell).Nodup)
    (i : Nat) (op : Op) (hi : ops[i]? = some op) :
    w1.cell (Op.cell op) = ⟨⟨op.1, op.2.1, op.2.2.1⟩, op.2.2.2, w.cubeCount + i⟩ := by
  induction ops generalizing w i with
  | nil => simp at hi
  | cons a ops ih =>
    obtain ⟨wm, h1, h2⟩ := addCubes_cons_inv h
    rw [List.map_cons, List.nodup_cons] at hnd
    cases i with
    | zero =>
      simp only [List.getElem?_cons_zero, Option.some.injEq] at hi
      subst hi
      rw [addCubes_cell_untouched ops h2 _ hnd.1, addCube_ok_cell h1]
      simp [Op.cell]
    | succ j =>
      simp only [List.getElem?_cons_succ] at hi
      rw [ih h2 hnd.2 j hi, addCube_ok_size h1]
      simp only [Nat.cast_add, Nat.cast_one, Cube.mk.injEq, true_and]
      omega

/-! ## The instance buffer as a mirror of the store -/

theorem read_congr (b1 b2 : GlBuffer) (off : Int) (n : Nat) (hn : 0 < n)
    (h : ∀ k : Nat, k < n → b1.mem (off + (k : Int)) = b2.mem (off + (k : Int))) :
    b1.read off n = b2.read off n := by
  have h0 : b1.mem off = b2.mem off := by simpa using h 0 hn
  unfold GlBuffer.read
  rw [h0]
  cases hm : b2.mem off with
  | none => rfl
  | some dk =>
    have hall : ∀ d : Datum,
        (List.range n).all (fun k => decide (b1.mem (off + (k : Int)) = some (d, (k : Int)))) =
        (List.range n).all (fun k => decide (b2.mem (off + (k : Int)) = some (d, (k : Int)))) := by
      intro d
      rw [Bool.eq_iff_iff, List.all_eq_true, List.all_eq_true]
      constructor
      · intro hk k hkm
        rw [← h k (List.mem_range.mp hkm)]
        exact hk k hkm
      · intro hk k hkm
        rw [h k (List.mem_range.mp hkm)]
        exact hk k hkm
    simp only [hall]

theorem read_of_mem (b : GlBuffer) (off : Int) (n : Nat) (d : Datum) (hn : 0 < n)
    (h : ∀ k : Nat, k < n → b.mem (off + (k : Int)) = some (d, (k : Int))) :
    b.read off n = some d := by
  have h0 : b.mem off = some (d, 0) := by simpa using h 0 hn
  unfold GlBuffer.read
  rw [h0]
  have hall : (List.range n).all (fun k => decide (b.mem (off + (k : Int)) = some (d, (k : Int)))) = true := by
    rw [List.all_eq_true]
    intro k hk
    simpa using h k (List.mem_range.mp hk)
  simp only [hall, if_true]

theorem renderer_addCube_mem (r : Renderer) (k : Int) (cube : Cube) (hk : 0 ≤ k)
    (hcap : 16 * k + 16 ≤ r.INSTANCE.size) (a : Int) :
    (r.addCube k cube).INSTANCE.mem a =
      if 16 * k + 12 ≤ a ∧ a < 16 * k + 16 then some (Datum.int cube.blockType, a - (16 * k + 12))
      else if 16 * k ≤ a ∧ a < 16 * k + 12 then some (Datum.vec3 cube.position, a - 16 * k)
      else r.INSTANCE.mem a := by
  have e1 : (sizeofVec3 + sizeofInt) * k = 16 * k := by
    simp only [sizeofVec3, sizeofInt]; omega
  have e2 : sizeofVec3 * (k + 1) + sizeofInt * k = 16 * k + 12 := by
    simp only [sizeofVec3, sizeofInt]; omega
  have c1 : 0 ≤ 16 * k ∧ 0 ≤ (12 : Int) ∧ 16 * k + 12 ≤ r.INSTANCE.size := ⟨by omega, by omega, by omega⟩
  have c2 : 0 ≤ 16 * k + 12 ∧ 0 ≤ (4 : Int) ∧ 16 * k + 12 + 4 ≤ r.INSTANCE.size :=
    ⟨by omega, by omega, by omega⟩
  simp only [Renderer.addCube, e1, e2]
  simp only [glBufferSubData, sizeofVec3, sizeofInt, c1, c2, and_self, if_true]
  have e3 : 16 * k + 12 + 4 = 16 * k + 16 := by omega
  rw [e3]

theorem renderer_addCube_size (r : Renderer) (k : Int) (cube : Cube) :
    (r.addCube k cube).INSTANCE.size = r.INSTANCE.size := by
  simp only [Renderer.addCube, glBufferSubData]
  split_ifs <;> rfl

theorem renderer_addCube_mem_outside (r : Renderer) (k : Int) (cube : Cube) (a : Int)
    (ha : a < 16 * k ∨ 16 * k + 16 ≤ a) :
    (r.addCube k cube).INSTANCE.mem a = r.INSTANCE.mem a := by
  have e1 : (sizeofVec3 + sizeofInt) * k = 16 * k := by
    simp only [sizeofVec3, sizeofInt]; omega
  have e2 : sizeofVec3 * (k + 1) + sizeofInt * k = 16 * k + 12 := by
    simp only [sizeofVec3, sizeofInt]; omega
  simp only [Renderer.addCube, e1, e2, glBufferSubData, sizeofVec3, sizeofInt]
  split_ifs <;> first | rfl | (simp only []; split_ifs <;> first | rfl | omega)

theorem voxelRecord_addCube_self (r : Renderer) (k : Int) (cube : Cube) (hk : 0 ≤ k)
    (hcap : 16 * k + 16 ≤ r.INSTANCE.size) :
    (r.addCube k cube).voxelRecord k = some (cube.position, cube.blockType) := by
  have e1 : (3 * 4 + 1 * 4) * k = 16 * k := by omega
  have e2 : 16 * k + 3 * 4 = 16 * k + 12 := by omega
  have r1 : (r.addCube k cube).INSTANCE.read (16 * k) 12 = some (Datum.vec3 cube.position) := by
    apply read_of_mem _ _ _ _ (by decide)
    intro j hj
    rw [renderer_addCube_mem r k cube hk hcap, if_neg (by omega), if_pos (by omega)]
    congr 2
    omega
  have r2 : (r.addCube k cube).INSTANCE.read (16 * k + 12) 4 = some (Datum.int cube.blockType) := by
    apply read_of_mem _ _ _ _ (by decide)
    intro j hj
    rw [renderer_addCube_mem r k cube hk hcap, if_pos (by omega)]
    congr 2
    omega
  simp only [Renderer.voxelRecord, e1, e2, r1, r2]

theorem voxelRecord_addCube_other (r : Renderer) (k j : Int) (cube : Cube) (hjk : j ≠ k) :
    (r.addCube k cube).voxelRecord j = r.voxelRecord j := by
  have e1 : (3 * 4 + 1 * 4) * j = 16 * j := by omega
  have e2 : 16 * j + 3 * 4 = 16 * j + 12 := by omega
  have r1 : (r.addCube k cube).INSTANCE.read (16 * j) 12 = r.INSTANCE.read (16 * j) 12 := by
    apply read_congr _ _ _ _ (by decide)
    intro m hm
    apply renderer_addCube_mem_outside
    omega
  have r2 : (r.addCube k cube).INSTANCE.read (16 * j + 12) 4 = r.INSTANCE.read (16 * j + 12) 4 := by
    apply read_congr _ _ _ _ (by decide)
    intro m hm
    apply renderer_addCube_mem_outside
    omega
  simp only [Renderer.voxelRecord, e1, e2, r1, r2]

theorem mirror_addCube {w w1 : World} {x y z t : Int} (hw : w.SlotInv) (hm : w.Mirror)
    (h : w.addCube x y z t = Except.ok w1) : w1.Mirror := by
  obtain ⟨r, hr, hsz, hrec⟩ := hm
  obtain ⟨h0, hb, _⟩ := hw
  have hin := addCube_ok_inRange h
  have hc := addCube_ok_cell h
  have hren : w1.renderer = some (r.addCube w.cubeCount ⟨⟨x, y, z⟩, t, w.cubeCount⟩) := by
    rw [addCube_inRange w x y z t hin] at h
    injection h with h
    rw [← h]
    simp only [hr, Option.map_some']
  refine ⟨_, hren, by rw [renderer_addCube_size, hsz], ?_⟩
  intro c ho hlt
  by_cases hcx : c = (x, y, z)
  · rw [hc c, if_pos hcx] at hlt ⊢
    simp only at hlt ⊢
    exact voxelRecord_addCube_self r _ _ h0 (by rw [hsz]; omega)
  · have hold : w.occupied c := by
      simpa only [World.occupied, hc c, if_neg hcx] using ho
    rw [hc c, if_neg hcx] at hlt ⊢
    have hne : (w.cell c).order ≠ w.cubeCount := by
      have := (hb c hold).2.2
      omega
    rw [voxelRecord_addCube_other r _ _ _ hne]
    exact hrec c hold hlt

theorem mirror_addCubes (ops : List Op) {w w1 : World} (hw : w.SlotInv) (hm : w.Mirror)
    (h : w.addCubes ops = Except.ok w1) : w1.Mirror := by
  induction ops generalizing w with
  | nil => cases h; exact hm
  | cons op ops ih =>
    obtain ⟨wm, h1, h2⟩ := addCubes_cons_inv h
    exact ih (slotInv_addCube hw h1) (mirror_addCube hw hm h1) h2

theorem mirror_attached : (World.empty.attachRenderer Renderer.fillBuffers).Mirror := by
  refine ⟨Renderer.fillBuffers, rfl, rfl, ?_⟩
  intro c ho
  exact absurd rfl ho

/-- C10 (amended): on a world whose renderer is attached before the first mutation,
after any sequence of in-range `addCube` calls, for every occupied voxel whose slot
index is below the 200000 records reserved by `fillBuffers`, the instance-buffer
record at that slot equals the voxel's current position and block type. -/
theorem buffer_mirror (ops : List Op) (hops : ∀ op ∈ ops, Op.inRange op) :
    ∃ (w : World) (r : Renderer),
      (World.empty.attachRenderer Renderer.fillBuffers).addCubes ops = Except.ok w ∧
      w.renderer = some r ∧
      ∀ c : Int × Int × Int, w.occupied c → (w.cell c).order < 200000 →
        r.voxelRecord (w.cell c).order = some ((w.cell c).position, (w.cell c).blockType) := by
  obtain ⟨w, hw⟩ := addCubes_inRange ops (World.empty.attachRenderer Renderer.fillBuffers) hops
  obtain ⟨r, hr, _, hrec⟩ :=
    mirror_addCubes ops (slotInv_fresh (some Renderer.fillBuffers)) mirror_attached hw
  exact ⟨w, r, hw, hr, hrec⟩

/-- Instance of the amended C10: three calls, the third overwriting the first cell. -/
theorem buffer_mirror_witness :
    (∀ op ∈ [((2, 3, 4, 1) : Op), (2, 3, 5, 2), (2, 3, 4, 3)], Op.inRange op) ∧
    ∃ (w : World) (r : Renderer),
      (World.empty.attachRenderer Renderer.fillBuffers).addCubes
        [((2, 3, 4, 1) : Op), (2, 3, 5, 2), (2, 3, 4, 3)] = Except.ok w ∧
      w.renderer = some r ∧
      ∀ c : Int × Int × Int, w.occupied c → (w.cell c).order < 200000 →
        r.voxelRecord (w.cell c).order = some ((w.cell c).position, (w.cell c).blockType) :=
  ⟨by decide, buffer_mirror _ (by decide)⟩

theorem addCubes_concat_inv (ops : List Op) (op : Op) {w w2 : World}
    (h : w.addCubes (ops ++ [op]) = Except.ok w2) :
    ∃ w1, w.addCubes ops = Except.ok w1 ∧
      w1.addCube op.1 op.2.1 op.2.2.1 op.2.2.2 = Except.ok w2 := by
  induction ops generalizing w with
  | nil =>
    obtain ⟨w1, h1, h2⟩ := addCubes_cons_inv h
    cases h2
    exact ⟨w, rfl, h1⟩
  | cons a ops ih =>
    rw [List.cons_append] at h
    obtain ⟨wm, h1, h2⟩ := addCubes_cons_inv h
    obtain ⟨w1, h3, h4⟩ := ih h2
    exact ⟨w1, by rw [addCubes_cons_ok ops h1]; exact h3, h4⟩

theorem glBufferSubData_size (b : GlBuffer) (offset size : Int) (d : Datum) :
    (glBufferSubData b offset size d).size = b.size := by
  unfold glBufferSubData
  split_ifs <;> rfl

theorem glBufferSubData_mem_beyond (b : GlBuffer) (offset size : Int) (d : Datum) (a : Int)
    (ha : b.size ≤ a) : (glBufferSubData b offset size d).mem a = b.mem a := by
  unfold glBufferSubData
  split_ifs with h1
  · have hn : ¬ (offset ≤ a ∧ a < offset + size) := by omega
    simp only [if_neg hn]
  · rfl

theorem renderer_addCube_mem_beyond (r : Renderer) (k : Int) (cube : Cube) (a : Int)
    (ha : r.INSTANCE.size ≤ a) :
    (r.addCube k cube).INSTANCE.mem a = r.INSTANCE.mem a := by
  simp only [Renderer.addCube]
  rw [glBufferSubData_mem_beyond _ _ _ _ _ (by rw [glBufferSubData_size]; exact ha),
    glBufferSubData_mem_beyond _ _ _ _ _ ha]

theorem unwritten_addCube {w w1 : World} {x y z t : Int}
    (h : w.addCube x y z t = Except.ok w1)
    (hw : ∃ r : Renderer, w.renderer = some r ∧ r.INSTANCE.size = 3200000 ∧
      ∀ a : Int, 3200000 ≤ a → r.INSTANCE.mem a = none) :
    ∃ r : Renderer, w1.renderer = some r ∧ r.INSTANCE.size = 3200000 ∧
      ∀ a : Int, 3200000 ≤ a → r.INSTANCE.mem a = none := by
  obtain ⟨r, hr, hsz, hmem⟩ := hw
  have hin := addCube_ok_inRange h
  rw [addCube_inRange w x y z t hin] at h
  injection h with h
  refine ⟨r.addCube w.cubeCount ⟨⟨x, y, z⟩, t, w.cubeCount⟩, ?_, by rw [renderer_addCube_size, hsz], ?_⟩
  · rw [← h]
    simp only [hr, Option.map_some']
  · intro a ha
    rw [renderer_addCube_mem_beyond r _ _ a (by rw [hsz]; exact ha)]
    exact hmem a ha

theorem unwritten_addCubes (ops : List Op) {w w1 : World}
    (h : w.addCubes ops = Except.ok w1)
    (hw : ∃ r : Renderer, w.renderer = some r ∧ r.INSTANCE.size = 3200000 ∧
      ∀ a : Int, 3200000 ≤ a → r.INSTANCE.mem a = none) :
    ∃ r : Renderer, w1.renderer = some r ∧ r.INSTANCE.size = 3200000 ∧
      ∀ a : Int, 3200000 ≤ a → r.INSTANCE.mem a = none := by
  induction ops generalizing w with
  | nil => cases h; exact hw
  | cons op ops ih =>
    obtain ⟨wm, h1, h2⟩ := addCubes_cons_inv h
    exact ih h2 (unwritten_addCube h1 hw)

/-- C10 (as stated, refuted): with the renderer attached before the first mutation, after
200001 calls `addCube(0,0,0,1)` the cell `(0,0,0)` is occupied with slot 200000,
and the instance buffer, reserved for 200000 records, holds no record at that
slot. -/
theorem buffer_mirror_counterexample :
    ∃ (w : World) (r : Renderer),
      (World.empty.attachRenderer Renderer.fillBuffers).addCubes
        (List.replicate 200001 ((0, 0, 0, 1) : Op)) = Except.ok w ∧
      w.renderer = some r ∧ w.occupied (0, 0, 0) ∧ (w.cell (0, 0, 0)).order = 200000 ∧
      r.voxelRecord (w.cell (0, 0, 0)).order = none ∧
      r.voxelRecord (w.cell (0, 0, 0)).order ≠
        some ((w.cell (0, 0, 0)).position, (w.cell (0, 0, 0)).blockType) := by
  have hrange : ∀ op ∈ List.replicate 200001 ((0, 0, 0, 1) : Op), Op.inRange op := by
    intro op hop
    rw [List.eq_of_mem_replicate hop]
    decide
  obtain ⟨w, hw⟩ := addCubes_inRange _ (World.empty.attachRenderer Renderer.fillBuffers) hrange
  obtain ⟨r, hr, _, hmem⟩ := unwritten_addCubes _ hw
    ⟨Renderer.fillBuffers, rfl, rfl, fun _ _ => rfl⟩
  have hsplit : List.replicate 200001 ((0, 0, 0, 1) : Op) =
      List.replicate 200000 ((0, 0, 0, 1) : Op) ++ [((0, 0, 0, 1) : Op)] :=
    List.replicate_succ' 200000 _
  have hw2 := hw
  rw [hsplit] at hw2
  obtain ⟨w0, h0, hlast⟩ := addCubes_concat_inv _ _ hw2
  have hlast1 : w0.addCube 0 0 0 1 = Except.ok w := hlast
  have hcount : w0.cubeCount = 200000 := by
    rw [addCubes_size _ h0, List.length_replicate]
    rfl
  have hcell : w.cell (0, 0, 0) = ⟨⟨0, 0, 0⟩, 1, 200000⟩ := by
    rw [addCube_ok_cell hlast1 (0, 0, 0), if_pos rfl, hcount]
  have hread : r.INSTANCE.read ((3 * 4 + 1 * 4) * 200000) 12 = none := by
    unfold GlBuffer.read
    rw [hmem _ (by decide)]
  have hrec : r.voxelRecord (w.cell (0, 0, 0)).order = none := by
    rw [hcell]
    simp only [Renderer.voxelRecord, hread]
  refine ⟨w, r, hw, hr, ?_, by rw [hcell], hrec, by rw [hrec]; exact fun hc => by cases hc⟩
  unfold World.occupied
  rw [hcell]
  decide

/-! ## The capacity of the voxel instance buffer -/

theorem glBufferSubData_rejected (b : GlBuffer) (offset size : Int) (d : Datum)
    (h : ¬ (0 ≤ offset ∧ 0 ≤ size ∧ offset + size ≤ b.size)) :
    glBufferSubData b offset size d = b := by
  unfold glBufferSubData
  rw [if_neg h]

theorem renderer_addCube_rejected (r : Renderer) (index : Int) (cube : Cube)
    (hsize : r.INSTANCE.size = 16 * 200000) (h : 200000 ≤ index) :
    r.addCube index cube = r := by
  have h1 : glBufferSubData r.INSTANCE ((sizeofVec3 + sizeofInt) * index) sizeofVec3
      (Datum.vec3 cube.position) = r.INSTANCE := by
    apply glBufferSubData_rejected
    simp only [sizeofVec3, sizeofInt, hsize]
    omega
  have h2 : glBufferSubData r.INSTANCE (sizeofVec3 * (index + 1) + sizeofInt * index) sizeofInt
      (Datum.int cube.blockType) = r.INSTANCE := by
    apply glBufferSubData_rejected
    simp only [sizeofVec3, sizeofInt, hsize]
    omega
  simp only [Renderer.addCube, h1, h2]

theorem distinctOps_inRange (n : Nat) (hn : n ≤ 2097152) :
    ∀ op ∈ distinctOps n, Op.inRange op := by
  intro op hop
  obtain ⟨i, hi, rfl⟩ := List.mem_map.mp hop
  have hi2 := List.mem_range.mp hi
  simp only [Op.inRange, inRange]
  omega

theorem distinctOps_nodup (n : Nat) : ((distinctOps n).map Op.cell).Nodup := by
  unfold distinctOps
  rw [List.map_map]
  refine (List.nodup_range n).map_on ?_
  intro i _ j _ hij
  simp only [Function.comp, Op.cell, Prod.mk.injEq] at hij
  omega

theorem distinctOps_blockType (n : Nat) : ∀ op ∈ distinctOps n, op.2.2.2 ≠ -1 := by
  intro op hop
  obtain ⟨i, _, rfl⟩ := List.mem_map.mp hop
  show (1 : Int) ≠ -1
  decide

theorem distinctOps_length (n : Nat) : (distinctOps n).length = n := by
  simp only [distinctOps, List.length_map, List.length_range]

/-- C11 (as stated, refuted): with the renderer attached, 200001 calls of `addCube` on
pairwise distinct in-range cells all return normally, none reporting an error,
and leave `size()` and the number of occupied cells at 200001, above the 200000
records the instance buffer is reserved for. -/
theorem capacity_counterexample :
    ∃ w : World,
      (World.empty.attachRenderer Renderer.fillBuffers).addCubes (distinctOps 200001) = Except.ok w ∧
      w.size = 200001 ∧ w.occupiedCount = 200001 ∧ (200000 : Int) < w.size := by
  obtain ⟨w, hw⟩ := addCubes_inRange (distinctOps 200001)
    (World.empty.attachRenderer Renderer.fillBuffers) (distinctOps_inRange 200001 (by decide))
  have hsize : w.size = 200001 := by
    unfold World.size
    rw [addCubes_size _ hw, distinctOps_length]
    rfl
  have hocc := occupiedCount_addCubes_distinct (distinctOps 200001) hw (distinctOps_nodup _)
    (distinctOps_blockType _) (fun op _ ho => ho rfl)
  rw [distinctOps_length] at hocc
  have hfresh : (World.empty.attachRenderer Renderer.fillBuffers).occupiedCount = 0 :=
    occupiedCount_fresh (some Renderer.fillBuffers)
  rw [hfresh, Nat.zero_add] at hocc
  exact ⟨w, hw, hsize, hocc, by rw [hsize]; decide⟩

/-- C11 (amended): `Renderer::addCube(index, cube)` with `index >= 200000` writes nothing
into the voxel instance buffer reserved by `fillBuffers`, since both uploads fall
outside the buffer and are ignored, but no `SlotOutOfCapacity` or other error
is reported: `World::addCube`, which has no capacity check, returns normally
for in-range coordinates however large `size()` already is, leaves the renderer
as it was and increments `size()` past 200000. -/
theorem capacity_not_enforced :
    (∀ (r : Renderer) (index : Int) (cube : Cube), r.INSTANCE.size = 16 * 200000 →
      200000 ≤ index → r.addCube index cube = r) ∧
    (∀ (w : World) (r : Renderer) (x y z t : Int), inRange 128 x y z →
      w.renderer = some r → r.INSTANCE.size = 16 * 200000 → 200000 ≤ w.size →
      ∃ w1 : World, w.addCube x y z t = Except.ok w1 ∧ w1.size = w.size + 1 ∧
        w1.renderer = some r) := by
  refine ⟨renderer_addCube_rejected, ?_⟩
  intro w r x y z t hin hr hsize hfull
  refine ⟨_, addCube_inRange w x y z t hin, rfl, ?_⟩
  simp only [hr, Option.map_some']
  have hfull2 : 200000 ≤ w.cubeCount := hfull
  rw [renderer_addCube_rejected r _ _ hsize hfull2]

/-- Instance of the amended C11: slot 200000 on the buffers of `fillBuffers`, and a
world whose counter stands at 200000. -/
theorem capacity_not_enforced_witness :
    (Renderer.fillBuffers.INSTANCE.size = 16 * 200000 ∧ (200000 : Int) ≤ 200000 ∧
      Renderer.fillBuffers.addCube 200000 ⟨⟨1, 2, 3⟩, 4, 200000⟩ = Renderer.fillBuffers) ∧
    (inRange 128 1 2 3 ∧
      ({ World.empty with cubeCount := 200000, renderer := some Renderer.fillBuffers } :
        World).renderer = some Renderer.fillBuffers ∧
      Renderer.fillBuffers.INSTANCE.size = 16 * 200000 ∧
      (200000 : Int) ≤
        ({ World.empty with cubeCount := 200000, renderer := some Renderer.fillBuffers } :
          World).size ∧
      ∃ w1 : World,
        ({ World.empty with cubeCount := 200000, renderer := some Renderer.fillBuffers } :
          World).addCube 1 2 3 4 = Except.ok w1 ∧
        w1.size = 200000 + 1 ∧ w1.renderer = some Renderer.fillBuffers) :=
  ⟨⟨rfl, by decide, capacity_not_enforced.1 _ _ _ rfl (by decide)⟩,
    ⟨by decide, rfl, rfl, by decide,
      capacity_not_enforced.2 _ Renderer.fillBuffers 1 2 3 4 (by decide) rfl rfl (by decide)⟩⟩

/-! ## The anchor registry -/

theorem addAppCube_appCubes (w : World) (p : Vec3) :
    (w.addAppCube p).appCubes = unorderedMapInsert w.appCubes p (w.appCubes.length : Int) := by
  unfold World.addAppCube
  cases w.renderer <;> rfl

theorem addAppCube_present (w : World) (p : Vec3) (h : p ∈ w.appCubes.map Prod.fst) :
    (w.addAppCube p).appCubes = w.appCubes := by
  rw [addAppCube_appCubes, unorderedMapInsert, if_pos h]

theorem addAppCube_absent (w : World) (p : Vec3) (h : p ∉ w.appCubes.map Prod.fst) :
    (w.addAppCube p).appCubes = w.appCubes ++ [(p, (w.appCubes.length : Int))] := by
  rw [addAppCube_appCubes, unorderedMapInsert, if_neg h]

theorem addAppCubes_nil (w : World) : w.addAppCubes [] = w := rfl

theorem addAppCubes_cons (w : World) (p : Vec3) (ps : List Vec3) :
    w.addAppCubes (p :: ps) = (w.addAppCube p).addAppCubes ps := rfl

theorem regInv_fresh (r : Option Renderer) : (World.fresh r).RegInv :=
  ⟨List.nodup_nil, rfl⟩

theorem regInv_addAppCube {w : World} (hw : w.RegInv) (p : Vec3) : (w.addAppCube p).RegInv := by
  by_cases h : p ∈ w.appCubes.map Prod.fst
  · unfold World.RegInv
    rw [addAppCube_present w p h]
    exact hw
  · obtain ⟨hk, hs⟩ := hw
    unfold World.RegInv
    rw [addAppCube_absent w p h]
    constructor
    · rw [List.map_append, List.nodup_append]
      refine ⟨hk, List.nodup_singleton _, ?_⟩
      intro a ha hb
      rw [List.map_singleton, List.mem_singleton] at hb
      have hap : a = p := hb
      rw [hap] at ha
      exact h ha
    · rw [List.map_append, hs, List.length_append, List.length_singleton, List.range_succ,
        List.map_append]
      rfl

theorem regInv_addAppCubes (ps : List Vec3) {w : World} (hw : w.RegInv) :
    (w.addAppCubes ps).RegInv := by
  induction ps generalizing w with
  | nil => exact hw
  | cons p ps ih => exact ih (regInv_addAppCube hw p)

theorem regInv_slot_bounds {w : World} (hw : w.RegInv) (i : Int) :
    (∃ p : Vec3, (p, i) ∈ w.appCubes) ↔ (0 ≤ i ∧ i < (w.appCubes.length : Int)) := by
  have hmem : (∃ p : Vec3, (p, i) ∈ w.appCubes) ↔ i ∈ w.appCubes.map Prod.snd := by
    rw [List.mem_map]
    constructor
    · rintro ⟨p, hp⟩
      exact ⟨(p, i), hp, rfl⟩
    · rintro ⟨⟨p, j⟩, hp, rfl⟩
      exact ⟨p, hp⟩
  rw [hmem, hw.2, List.mem_map]
  constructor
  · rintro ⟨k, hk, rfl⟩
    have := List.mem_range.mp hk
    omega
  · rintro ⟨h0, h1⟩
    exact ⟨i.toNat, List.mem_range.mpr (by omega), by omega⟩

theorem regInv_slots_nodup {w : World} (hw : w.RegInv) : (w.appCubes.map Prod.snd).Nodup := by
  rw [hw.2]
  refine (List.nodup_range _).map ?_
  intro a b hab
  exact Int.ofNat.inj hab

theorem regInv_slot_unique {w : World} (hw : w.RegInv) (p q : Vec3) (i : Int)
    (hp : (p, i) ∈ w.appCubes) (hq : (q, i) ∈ w.appCubes) : p = q := by
  have := List.inj_on_of_nodup_map (regInv_slots_nodup hw) hp hq rfl
  exact (Prod.mk.inj this).1

theorem regInv_key_unique {w : World} (hw : w.RegInv) (p : Vec3) (i j : Int)
    (hi : (p, i) ∈ w.appCubes) (hj : (p, j) ∈ w.appCubes) : i = j := by
  have := List.inj_on_of_nodup_map hw.1 hi hj rfl
  exact (Prod.mk.inj this).2

/-- C15: in every registry reached from the empty registry (with or without a
renderer attached) by a sequence of `addAppCube` calls, repeated positions
included, the slot indices stored in `appCubes` are exactly the integers
`0 .. n-1` for the `n` anchors, each slot is held by one anchor position only, and
each position holds one slot only. -/
theorem app_slots_dense (r : Option Renderer) (ps : List Vec3) :
    (∀ i : Int, (∃ p : Vec3, (p, i) ∈ ((World.fresh r).addAppCubes ps).appCubes) ↔
      (0 ≤ i ∧ i < (((World.fresh r).addAppCubes ps).appCubes.length : Int))) ∧
    (∀ (p q : Vec3) (i : Int), (p, i) ∈ ((World.fresh r).addAppCubes ps).appCubes →
      (q, i) ∈ ((World.fresh r).addAppCubes ps).appCubes → p = q) ∧
    (∀ (p : Vec3) (i j : Int), (p, i) ∈ ((World.fresh r).addAppCubes ps).appCubes →
      (p, j) ∈ ((World.fresh r).addAppCubes ps).appCubes → i = j) := by
  have hinv := regInv_addAppCubes ps (regInv_fresh r)
  exact ⟨regInv_slot_bounds hinv, regInv_slot_unique hinv, regInv_key_unique hinv⟩

/-- C20: for every registry state and every position `p` already present in
`appCubes`, `addAppCube(p)` leaves `appCubes` as it is: the number of anchors is
unchanged, `p` keeps its slot index, and every other anchor keeps its slot
index. -/
theorem addAppCube_existing (w : World) (p : Vec3) (i : Int) (hp : (p, i) ∈ w.appCubes) :
    (w.addAppCube p).appCubes.length = w.appCubes.length ∧
    (p, i) ∈ (w.addAppCube p).appCubes ∧
    (∀ (q : Vec3) (j : Int), (q, j) ∈ (w.addAppCube p).appCubes ↔ (q, j) ∈ w.appCubes) ∧
    (w.addAppCube p).appCubes = w.appCubes := by
  have h : (w.addAppCube p).appCubes = w.appCubes :=
    addAppCube_present w p (List.mem_map_of_mem Prod.fst hp)
  rw [h]
  exact ⟨rfl, hp, fun _ _ => Iff.rfl, rfl⟩

/-- Instance of C20: the anchor `(1,2,3)` placed again in a registry of two anchors. -/
theorem addAppCube_existing_witness :
    ((⟨1, 2, 3⟩ : Vec3), (0 : Int)) ∈ (World.empty.addAppCubes [⟨1, 2, 3⟩, ⟨4, 5, 6⟩]).appCubes ∧
    ((World.empty.addAppCubes [⟨1, 2, 3⟩, ⟨4, 5, 6⟩]).addAppCube ⟨1, 2, 3⟩).appCubes.length =
      (World.empty.addAppCubes [⟨1, 2, 3⟩, ⟨4, 5, 6⟩]).appCubes.length ∧
    ((⟨1, 2, 3⟩ : Vec3), (0 : Int)) ∈
      ((World.empty.addAppCubes [⟨1, 2, 3⟩, ⟨4, 5, 6⟩]).addAppCube ⟨1, 2, 3⟩).appCubes ∧
    (∀ (q : Vec3) (j : Int),
      (q, j) ∈ ((World.empty.addAppCubes [⟨1, 2, 3⟩, ⟨4, 5, 6⟩]).addAppCube ⟨1, 2, 3⟩).appCubes ↔
        (q, j) ∈ (World.empty.addAppCubes [⟨1, 2, 3⟩, ⟨4, 5, 6⟩]).appCubes) ∧
    ((World.empty.addAppCubes [⟨1, 2, 3⟩, ⟨4, 5, 6⟩]).addAppCube ⟨1, 2, 3⟩).appCubes =
      (World.empty.addAppCubes [⟨1, 2, 3⟩, ⟨4, 5, 6⟩]).appCubes :=
  ⟨by decide, addAppCube_existing _ ⟨1, 2, 3⟩ 0 (by decide)⟩

/-! ## What `World::getAppCubes` computes -/

theorem getAppCubesLoop_spec :
    ∀ (l : List (Vec3 × Int)) (keys : List Vec3), (l.map Prod.snd).Nodup →
      (∀ kv ∈ l, 0 ≤ kv.2 ∧ kv.2 < (keys.length : Int)) →
      ∃ out : List Vec3, World.getAppCubesLoop l keys = some out ∧ out.length = keys.length ∧
        (∀ kv ∈ l, out[kv.2.toNat]? = some kv.1) ∧
        (∀ i : Nat, (∀ kv ∈ l, kv.2 ≠ (i : Int)) → out[i]? = keys[i]?) := by
  intro l
  induction l with
  | nil =>
    intro keys _ _
    exact ⟨keys, rfl, rfl, fun kv hkv => absurd hkv (List.not_mem_nil kv), fun _ _ => rfl⟩
  | cons a l ih =>
    intro keys hnd hb
    rw [List.map_cons, List.nodup_cons] at hnd
    have hba := hb a (List.mem_cons_self _ _)
    have hbl : ∀ kv ∈ l, 0 ≤ kv.2 ∧ kv.2 < ((keys.set a.2.toNat a.1).length : Int) := by
      intro kv hkv
      rw [List.length_set]
      exact hb kv (List.mem_cons_of_mem _ hkv)
    obtain ⟨out, hf, hlen, hocc, hrest⟩ := ih (keys.set a.2.toNat a.1) hnd.2 hbl
    refine ⟨out, ?_, by rw [hlen, List.length_set], ?_, ?_⟩
    · unfold World.getAppCubesLoop at hf ⊢
      rw [List.foldlM_cons, if_pos hba]
      exact hf
    · intro kv hkv
      rcases List.mem_cons.mp hkv with rfl | hmem
      · have hne : ∀ kv2 ∈ l, kv2.2 ≠ ((kv.2.toNat : Nat) : Int) := by
          intro kv2 h2 heq
          apply hnd.1
          have : kv2.2 = kv.2 := by omega
          rw [← this]
          exact List.mem_map_of_mem Prod.snd h2
        rw [hrest _ hne, List.getElem?_set_self (by omega)]
      · exact hocc kv hmem
    · intro i hi
      rw [hrest i (fun kv hkv => hi kv (List.mem_cons_of_mem _ hkv))]
      have := hi a (List.mem_cons_self _ _)
      rw [List.getElem?_set_ne (by omega)]

theorem getAppCubesLoop_perm {w : World} (hw : w.RegInv) (es : List (Vec3 × Int))
    (hes : es.Perm w.appCubes) :
    ∃ rv : List Vec3,
      World.getAppCubesLoop es (List.replicate w.appCubes.length Vec3.zero) = some rv ∧
      rv.length = w.appCubes.length ∧
      ∀ (p : Vec3) (i : Int), (p, i) ∈ w.appCubes → rv[i.toNat]? = some p := by
  have hnd : (es.map Prod.snd).Nodup :=
    ((hes.map Prod.snd).nodup_iff).mpr (regInv_slots_nodup hw)
  have hb : ∀ kv ∈ es, 0 ≤ kv.2 ∧
      kv.2 < ((List.replicate w.appCubes.length Vec3.zero).length : Int) := by
    intro kv hkv
    rw [List.length_replicate]
    exact (regInv_slot_bounds hw kv.2).mp ⟨kv.1, hes.subset hkv⟩
  obtain ⟨out, hf, hlen, hocc, _⟩ := getAppCubesLoop_spec es _ hnd hb
  refine ⟨out, hf, by rw [hlen, List.length_replicate], ?_⟩
  intro p i hp
  exact hocc (p, i) (hes.symm.subset hp)

/-- C16: for every registry reached by a sequence of `addAppCube` calls,
`getAppCubes()` returns a vector whose length is the number of anchors and whose
element at index `i` is the position of the anchor holding slot `i`, for every
`i` below that number; no index is written out of range, and the result is the
same in whatever order the map hands out its entries. -/
theorem getAppCubes_by_slot (r : Option Renderer) (ps : List Vec3) :
    ∃ rv : List Vec3, ((World.fresh r).addAppCubes ps).getAppCubes = some rv ∧
      rv.length = ((World.fresh r).addAppCubes ps).appCubes.length ∧
      (∀ i : Nat, i < rv.length →
        ∃ p : Vec3, (p, (i : Int)) ∈ ((World.fresh r).addAppCubes ps).appCubes ∧ rv[i]? = some p) ∧
      (∀ (p : Vec3) (i : Int), (p, i) ∈ ((World.fresh r).addAppCubes ps).appCubes →
        rv[i.toNat]? = some p) ∧
      (∀ es : List (Vec3 × Int), es.Perm ((World.fresh r).addAppCubes ps).appCubes →
        World.getAppCubesLoop es
          (List.replicate ((World.fresh r).addAppCubes ps).appCubes.length Vec3.zero) = some rv) := by
  have hinv := regInv_addAppCubes ps (regInv_fresh r)
  obtain ⟨rv, hrv, hlen, hocc⟩ := getAppCubesLoop_perm hinv _ (List.Perm.refl _)
  have hall : ∀ i : Nat, i < rv.length →
      ∃ p : Vec3, (p, (i : Int)) ∈ ((World.fresh r).addAppCubes ps).appCubes ∧ rv[i]? = some p := by
    intro i hi
    obtain ⟨p, hp⟩ := (regInv_slot_bounds hinv (i : Int)).mpr ⟨by omega, by omega⟩
    exact ⟨p, hp, by simpa using hocc p i hp⟩
  refine ⟨rv, hrv, hlen, hall, hocc, ?_⟩
  intro es hes
  obtain ⟨rv2, hrv2, hlen2, hocc2⟩ := getAppCubesLoop_perm hinv es hes
  rw [hrv2]
  congr 1
  apply List.ext_getElem?
  intro i
  by_cases hi : i < rv.length
  · obtain ⟨p, hp, hrvi⟩ := hall i hi
    rw [hrvi]
    simpa using hocc2 p i hp
  · rw [List.getElem?_eq_none (by omega), List.getElem?_eq_none (by omega)]

/-- Instance of C16: three calls, the third repeating the first position, with the
entries handed out in reverse order. -/
theorem getAppCubes_by_slot_witness :
    [((⟨4, 5, 6⟩ : Vec3), (1 : Int)), (⟨1, 2, 3⟩, 0)].Perm
      ((World.fresh none).addAppCubes [⟨1, 2, 3⟩, ⟨4, 5, 6⟩, ⟨1, 2, 3⟩]).appCubes ∧
    ∃ rv : List Vec3,
      ((World.fresh none).addAppCubes [⟨1, 2, 3⟩, ⟨4, 5, 6⟩, ⟨1, 2, 3⟩]).getAppCubes = some rv ∧
      rv.length = 2 ∧
      World.getAppCubesLoop [((⟨4, 5, 6⟩ : Vec3), (1 : Int)), (⟨1, 2, 3⟩, 0)]
        (List.replicate 2 Vec3.zero) = some rv :=
  ⟨List.Perm.swap _ _ _,
    (getAppCubes_by_slot none [⟨1, 2, 3⟩, ⟨4, 5, 6⟩, ⟨1, 2, 3⟩]).elim fun rv h =>
      ⟨rv, h.1, h.2.1, h.2.2.2.2 _ (List.Perm.swap _ _ _)⟩⟩

/-! ## The capacity of the anchor instance buffer -/

theorem renderer_addAppCube_rejected (r : Renderer) (index : Int) (pos : Vec3)
    (hsize : r.APP_INSTANCE.size = 16 * 20) (h : 20 ≤ index) :
    r.addAppCube index pos = r := by
  have h1 : glBufferSubData r.APP_INSTANCE ((sizeofVec3 + sizeofInt) * index) sizeofVec3
      (Datum.vec3 pos) = r.APP_INSTANCE := by
    apply glBufferSubData_rejected
    simp only [sizeofVec3, sizeofInt, hsize]
    omega
  have h2 : glBufferSubData r.APP_INSTANCE (sizeofVec3 * (index + 1) + sizeofInt * index)
      sizeofInt (Datum.int index) = r.APP_INSTANCE := by
    apply glBufferSubData_rejected
    simp only [sizeofVec3, sizeofInt, hsize]
    omega
  simp only [Renderer.addAppCube, h1, h2]

theorem renderer_addAppCube_size (r : Renderer) (index : Int) (pos : Vec3) :
    (r.addAppCube index pos).APP_INSTANCE.size = r.APP_INSTANCE.size := by
  simp only [Renderer.addAppCube, glBufferSubData_size]

theorem addAppCube_renderer (w : World) (p : Vec3) :
    (w.addAppCube p).renderer =
      w.renderer.map (fun r => r.addAppCube (w.appCubes.length : Int) p) := by
  unfold World.addAppCube
  cases w.renderer <;> rfl

theorem addAppCubes_renderer_size (ps : List Vec3) {w : World} {r : Renderer} {n : Int}
    (hr : w.renderer = some r) (hsize : r.APP_INSTANCE.size = n) :
    ∃ r1 : Renderer, (w.addAppCubes ps).renderer = some r1 ∧ r1.APP_INSTANCE.size = n := by
  induction ps generalizing w r with
  | nil => exact ⟨r, hr, hsize⟩
  | cons p ps ih =>
    rw [addAppCubes_cons]
    apply ih (r := r.addAppCube (w.appCubes.length : Int) p)
    · rw [addAppCube_renderer, hr]
      rfl
    · rw [renderer_addAppCube_size, hsize]

theorem addAppCubes_keys (ps : List Vec3) {w : World} (hnd : ps.Nodup)
    (hnew : ∀ p ∈ ps, p ∉ w.appCubes.map Prod.fst) :
    (w.addAppCubes ps).appCubes.map Prod.fst = w.appCubes.map Prod.fst ++ ps := by
  induction ps generalizing w with
  | nil => simp [addAppCubes_nil]
  | cons p ps ih =>
    rw [List.nodup_cons] at hnd
    have hp := hnew p (List.mem_cons_self _ _)
    have hkeys : (w.addAppCube p).appCubes.map Prod.fst = w.appCubes.map Prod.fst ++ [p] := by
      rw [addAppCube_absent w p hp, List.map_append]
      rfl
    rw [addAppCubes_cons, ih hnd.2, hkeys, List.append_assoc]
    · rfl
    · intro q hq
      rw [hkeys, List.mem_append, List.mem_singleton, not_or]
      exact ⟨hnew q (List.mem_cons_of_mem _ hq), fun h => hnd.1 (h ▸ hq)⟩

/-- C14 (amended): with the app instance buffer reserved for 20 anchors, once 20 distinct
anchors have been placed with `addAppCube`, placing one more distinct anchor
succeeds: `addAppCube` has no capacity check, the anchor is entered with slot 20
and the number of anchors, which is the size of `getAppCubes()`, becomes 21.  Only
the renderer's upload of record 20 falls outside the app instance buffer and is
ignored, so the renderer stays as it was. -/
theorem addAppCube_beyond_capacity (ps : List Vec3) (p : Vec3)
    (hnd : ps.Nodup) (hlen : ps.length = 20) (hp : p ∉ ps) :
    ((World.empty.attachRenderer Renderer.fillBuffers).addAppCubes ps).appCubes.length = 20 ∧
    (((World.empty.attachRenderer Renderer.fillBuffers).addAppCubes ps).addAppCube p).appCubes =
      ((World.empty.attachRenderer Renderer.fillBuffers).addAppCubes ps).appCubes ++ [(p, 20)] ∧
    (∃ rv : List Vec3,
      (((World.empty.attachRenderer Renderer.fillBuffers).addAppCubes ps).addAppCube p).getAppCubes =
        some rv ∧ rv.length = 21 ∧ rv[20]? = some p) ∧
    (((World.empty.attachRenderer Renderer.fillBuffers).addAppCubes ps).addAppCube p).renderer =
      ((World.empty.attachRenderer Renderer.fillBuffers).addAppCubes ps).renderer := by
  have hkeys := addAppCubes_keys ps (w := World.empty.attachRenderer Renderer.fillBuffers) hnd
    (fun q _ hq => absurd hq (List.not_mem_nil q))
  have hk : ((World.empty.attachRenderer Renderer.fillBuffers).addAppCubes ps).appCubes.map Prod.fst
      = ps := hkeys
  have hl : ((World.empty.attachRenderer Renderer.fillBuffers).addAppCubes ps).appCubes.length
      = 20 := by
    have hcong := congrArg List.length hk
    rw [List.length_map] at hcong
    rw [hcong, hlen]
  have habs : p ∉ ((World.empty.attachRenderer Renderer.fillBuffers).addAppCubes ps).appCubes.map
      Prod.fst := by
    rw [hk]
    exact hp
  have happ := addAppCube_absent _ p habs
  rw [hl] at happ
  have hinv : (((World.empty.attachRenderer Renderer.fillBuffers).addAppCubes ps).addAppCube
      p).RegInv :=
    regInv_addAppCube (regInv_addAppCubes ps (regInv_fresh (some Renderer.fillBuffers))) p
  obtain ⟨rv, hrv, hrvlen, hocc⟩ := getAppCubesLoop_perm hinv _ (List.Perm.refl _)
  have hl21 : (((World.empty.attachRenderer Renderer.fillBuffers).addAppCubes ps).addAppCube
      p).appCubes.length = 21 := by
    rw [happ, List.length_append, hl]
    rfl
  obtain ⟨r1, hr1, hr1size⟩ := addAppCubes_renderer_size ps
    (w := World.empty.attachRenderer Renderer.fillBuffers) (r := Renderer.fillBuffers)
    (n := 16 * 20) rfl rfl
  refine ⟨hl, happ, ⟨rv, hrv, by rw [hrvlen, hl21], ?_⟩, ?_⟩
  · have := hocc p 20 (by rw [happ]; exact List.mem_append_right _ (List.mem_singleton_self _))
    simpa using this
  · rw [addAppCube_renderer, hr1, hl]
    simp only [Option.map_some']
    rw [renderer_addAppCube_rejected r1 _ p hr1size (by decide)]

/-- C14 (as stated, refuted): with the renderer attached, after the 20 anchors
`(0,0,0), ..., (19,0,0)` the call `addAppCube((20,0,0))` does not fail: the
registry then holds 21 anchors, the new one with slot 20, and `getAppCubes()` has
size 21. -/
theorem addAppCube_capacity_counterexample :
    ((World.empty.attachRenderer Renderer.fillBuffers).addAppCubes (anchorRow 20)).appCubes.length
      = 20 ∧
    (((World.empty.attachRenderer Renderer.fillBuffers).addAppCubes (anchorRow 20)).addAppCube
      ⟨20, 0, 0⟩).appCubes.length = 21 ∧
    ((⟨20, 0, 0⟩ : Vec3), (20 : Int)) ∈
      (((World.empty.attachRenderer Renderer.fillBuffers).addAppCubes (anchorRow 20)).addAppCube
        ⟨20, 0, 0⟩).appCubes ∧
    ∃ rv : List Vec3,
      (((World.empty.attachRenderer Renderer.fillBuffers).addAppCubes (anchorRow 20)).addAppCube
        ⟨20, 0, 0⟩).getAppCubes = some rv ∧ rv.length = 21 ∧ rv.length ≠ 20 := by
  have hnd : (anchorRow 20).Nodup := by decide
  have hkeys := addAppCubes_keys (anchorRow 20)
    (w := World.empty.attachRenderer Renderer.fillBuffers) hnd
    (fun q _ hq => absurd hq (List.not_mem_nil q))
  have hk : ((World.empty.attachRenderer Renderer.fillBuffers).addAppCubes
      (anchorRow 20)).appCubes.map Prod.fst = anchorRow 20 := hkeys
  have hl : ((World.empty.attachRenderer Renderer.fillBuffers).addAppCubes
      (anchorRow 20)).appCubes.length = 20 := by
    have hcong := congrArg List.length hk
    rw [List.length_map] at hcong
    rw [hcong]
    rfl
  have habs : (⟨20, 0, 0⟩ : Vec3) ∉ ((World.empty.attachRenderer Renderer.fillBuffers).addAppCubes
      (anchorRow 20)).appCubes.map Prod.fst := by
    rw [hk]
    decide
  have happ := addAppCube_absent _ _ habs
  rw [hl] at happ
  have hl21 : (((World.empty.attachRenderer Renderer.fillBuffers).addAppCubes
      (anchorRow 20)).addAppCube ⟨20, 0, 0⟩).appCubes.length = 21 := by
    rw [happ, List.length_append, hl]
    rfl
  have hinv : (((World.empty.attachRenderer Renderer.fillBuffers).addAppCubes
      (anchorRow 20)).addAppCube ⟨20, 0, 0⟩).RegInv :=
    regInv_addAppCube (regInv_addAppCubes _ (regInv_fresh (some Renderer.fillBuffers))) _
  obtain ⟨rv, hrv, hrvlen, _⟩ := getAppCubesLoop_perm hinv _ (List.Perm.refl _)
  refine ⟨hl, hl21, ?_, rv, hrv, by rw [hrvlen, hl21], by rw [hrvlen, hl21]; decide⟩
  rw [happ]
  exact List.mem_append_right _ (List.mem_singleton_self _)

/-- Instance of the amended C14: the anchors `(0,0,0), ..., (19,0,0)` and then
`(20,0,0)`. -/
theorem addAppCube_beyond_capacity_witness :
    (anchorRow 20).Nodup ∧ (anchorRow 20).length = 20 ∧ (⟨20, 0, 0⟩ : Vec3) ∉ anchorRow 20 ∧
    (((World.empty.attachRenderer Renderer.fillBuffers).addAppCubes (anchorRow 20)).addAppCube
      ⟨20, 0, 0⟩).appCubes =
      ((World.empty.attachRenderer Renderer.fillBuffers).addAppCubes (anchorRow 20)).appCubes ++
        [(⟨20, 0, 0⟩, 20)] ∧
    (((World.empty.attachRenderer Renderer.fillBuffers).addAppCubes (anchorRow 20)).addAppCube
      ⟨20, 0, 0⟩).renderer =
      ((World.empty.attachRenderer Renderer.fillBuffers).addAppCubes (anchorRow 20)).renderer :=
  ⟨by decide, by decide, by decide,
    (addAppCube_beyond_capacity (anchorRow 20) ⟨20, 0, 0⟩ (by decide) (by decide) (by decide)).2.1,
    (addAppCube_beyond_capacity (anchorRow 20) ⟨20, 0, 0⟩ (by decide) (by decide)
      (by decide)).2.2.2⟩

/-! ## The layout of an instance record -/

theorem record_write_mem (b : GlBuffer) (i : Int) (d1 d2 : Datum) (hi : 0 ≤ i)
    (hcap : 16 * i + 16 ≤ b.size) (a : Int) :
    (glBufferSubData (glBufferSubData b ((sizeofVec3 + sizeofInt) * i) sizeofVec3 d1)
      (sizeofVec3 * (i + 1) + sizeofInt * i) sizeofInt d2).mem a =
      if 16 * i + 12 ≤ a ∧ a < 16 * i + 16 then some (d2, a - (16 * i + 12))
      else if 16 * i ≤ a ∧ a < 16 * i + 12 then some (d1, a - 16 * i)
      else b.mem a := by
  have e1 : (sizeofVec3 + sizeofInt) * i = 16 * i := by
    simp only [sizeofVec3, sizeofInt]; omega
  have e2 : sizeofVec3 * (i + 1) + sizeofInt * i = 16 * i + 12 := by
    simp only [sizeofVec3, sizeofInt]; omega
  have c1 : 0 ≤ 16 * i ∧ 0 ≤ (12 : Int) ∧ 16 * i + 12 ≤ b.size := ⟨by omega, by omega, by omega⟩
  have c2 : 0 ≤ 16 * i + 12 ∧ 0 ≤ (4 : Int) ∧ 16 * i + 12 + 4 ≤ b.size :=
    ⟨by omega, by omega, by omega⟩
  rw [e1, e2]
  simp only [glBufferSubData, sizeofVec3, sizeofInt, c1, c2, and_self, if_true]
  have e3 : 16 * i + 12 + 4 = 16 * i + 16 := by omega
  rw [e3]

theorem glBufferSubData_mem_outside (b : GlBuffer) (offset size : Int) (d : Datum) (a : Int)
    (ha : a < offset ∨ offset + size ≤ a) : (glBufferSubData b offset size d).mem a = b.mem a := by
  unfold glBufferSubData
  split_ifs with h1
  · have hn : ¬ (offset ≤ a ∧ a < offset + size) := by omega
    simp only [if_neg hn]
  · rfl

theorem record_write_outside (b : GlBuffer) (i : Int) (d1 d2 : Datum) (a : Int)
    (ha : a < 16 * i ∨ 16 * i + 16 ≤ a) :
    (glBufferSubData (glBufferSubData b ((sizeofVec3 + sizeofInt) * i) sizeofVec3 d1)
      (sizeofVec3 * (i + 1) + sizeofInt * i) sizeofInt d2).mem a = b.mem a := by
  rw [glBufferSubData_mem_outside _ _ _ _ _ (by simp only [sizeofVec3, sizeofInt]; omega),
    glBufferSubData_mem_outside _ _ _ _ _ (by simp only [sizeofVec3, sizeofInt]; omega)]

/-- C17: with a 12-byte position and a 4-byte integer, for every index `i >= 0` the
uploads of `Renderer::addCube(i, cube)` and `Renderer::addAppCube(i, pos)` are
the position at byte offset `16*i` (12 bytes) and the integer tag at byte offset
`16*i + 12` (4 bytes).  These offsets are the stride times `i` plus the attribute
offsets declared in `setupVertexAttributePointers` (stride 16, offsets 0 and 12);
the two fields fill exactly the bytes `[16*i, 16*i + 16)`, the ranges of distinct
slots are disjoint, no byte outside the range is changed, and a record that lies
inside the buffer holds the position in its first 12 bytes and the tag in its
last 4. -/
theorem instance_record_layout (i : Int) (hi : 0 ≤ i) (cube : Cube) (pos : Vec3) :
    (sizeofVec3 = 3 * sizeofFloat ∧ sizeofVec3 = 12 ∧ sizeofInt = 4) ∧
    (Renderer.addCubeCalls i cube =
      [⟨16 * i, 12, Datum.vec3 cube.position⟩, ⟨16 * i + 12, 4, Datum.int cube.blockType⟩] ∧
     Renderer.addAppCubeCalls i pos =
      [⟨16 * i, 12, Datum.vec3 pos⟩, ⟨16 * i + 12, 4, Datum.int i⟩]) ∧
    (∀ r : Renderer, (r.addCube i cube).INSTANCE = applyCalls r.INSTANCE (Renderer.addCubeCalls i cube) ∧
      (r.addAppCube i pos).APP_INSTANCE =
        applyCalls r.APP_INSTANCE (Renderer.addAppCubeCalls i pos)) ∧
    (instanceStride = 16 ∧ 16 * i = instanceStride * i + instancePositionOffset ∧
      16 * i + 12 = instanceStride * i + instanceTagOffset) ∧
    (∀ a : Int, ((16 * i ≤ a ∧ a < 16 * i + 12) ∨ (16 * i + 12 ≤ a ∧ a < 16 * i + 12 + 4)) ↔
      (16 * i ≤ a ∧ a < 16 * i + 16)) ∧
    (∀ j : Int, 0 ≤ j → j ≠ i → ∀ a : Int,
      ¬ ((16 * i ≤ a ∧ a < 16 * i + 16) ∧ (16 * j ≤ a ∧ a < 16 * j + 16))) ∧
    (∀ (r : Renderer) (a : Int), (a < 16 * i ∨ 16 * i + 16 ≤ a) →
      (r.addCube i cube).INSTANCE.mem a = r.INSTANCE.mem a ∧
      (r.addAppCube i pos).APP_INSTANCE.mem a = r.APP_INSTANCE.mem a) ∧
    (∀ (r : Renderer) (a : Int), 16 * i + 16 ≤ r.INSTANCE.size →
      (16 * i ≤ a ∧ a < 16 * i + 12 →
        (r.addCube i cube).INSTANCE.mem a = some (Datum.vec3 cube.position, a - 16 * i)) ∧
      (16 * i + 12 ≤ a ∧ a < 16 * i + 16 →
        (r.addCube i cube).INSTANCE.mem a = some (Datum.int cube.blockType, a - (16 * i + 12)))) ∧
    (∀ (r : Renderer) (a : Int), 16 * i + 16 ≤ r.APP_INSTANCE.size →
      (16 * i ≤ a ∧ a < 16 * i + 12 →
        (r.addAppCube i pos).APP_INSTANCE.mem a = some (Datum.vec3 pos, a - 16 * i)) ∧
      (16 * i + 12 ≤ a ∧ a < 16 * i + 16 →
        (r.addAppCube i pos).APP_INSTANCE.mem a = some (Datum.int i, a - (16 * i + 12)))) := by
  have e1 : (sizeofVec3 + sizeofInt) * i = 16 * i := by
    simp only [sizeofVec3, sizeofInt]; omega
  have e2 : sizeofVec3 * (i + 1) + sizeofInt * i = 16 * i + 12 := by
    simp only [sizeofVec3, sizeofInt]; omega
  refine ⟨⟨rfl, rfl, rfl⟩, ⟨?_, ?_⟩, fun r => ⟨rfl, rfl⟩, ⟨rfl, ?_, ?_⟩, ?_, ?_, ?_, ?_, ?_⟩
  · simp only [Renderer.addCubeCalls, e1, e2]
    rfl
  · simp only [Renderer.addAppCubeCalls, e1, e2]
    rfl
  · simp only [instanceStride, instancePositionOffset, sizeofFloat, sizeofInt]
    omega
  · simp only [instanceStride, instanceTagOffset, sizeofFloat, sizeofInt]
    omega
  · intro a
    omega
  · intro j _ hji a
    omega
  · intro r a ha
    exact ⟨record_write_outside r.INSTANCE i _ _ a ha, record_write_outside r.APP_INSTANCE i _ _ a ha⟩
  · intro r a hcap
    have hm : (r.addCube i cube).INSTANCE.mem a = _ := record_write_mem r.INSTANCE i _ _ hi hcap a
    constructor
    · intro ha
      rw [hm, if_neg (by omega), if_pos ha]
    · intro ha
      rw [hm, if_pos ha]
  · intro r a hcap
    have hm : (r.addAppCube i pos).APP_INSTANCE.mem a = _ :=
      record_write_mem r.APP_INSTANCE i _ _ hi hcap a
    constructor
    · intro ha
      rw [hm, if_neg (by omega), if_pos ha]
    · intro ha
      rw [hm, if_pos ha]

/-- Instance of C17: slot 3, with the records read back from the buffers of
`fillBuffers`. -/
theorem instance_record_layout_witness :
    (0 : Int) ≤ 3 ∧
    Renderer.addCubeCalls 3 ⟨⟨2, 3, 4⟩, 1, 3⟩ =
      [⟨16 * 3, 12, Datum.vec3 ⟨2, 3, 4⟩⟩, ⟨16 * 3 + 12, 4, Datum.int 1⟩] ∧
    Renderer.addAppCubeCalls 3 ⟨5, 6, 7⟩ =
      [⟨16 * 3, 12, Datum.vec3 ⟨5, 6, 7⟩⟩, ⟨16 * 3 + 12, 4, Datum.int 3⟩] ∧
    (16 * 3 + 16 ≤ Renderer.fillBuffers.INSTANCE.size ∧ ((16 : Int) * 3 ≤ 50 ∧ (50 : Int) < 16 * 3 + 12) ∧
      (Renderer.fillBuffers.addCube 3 ⟨⟨2, 3, 4⟩, 1, 3⟩).INSTANCE.mem 50 =
        some (Datum.vec3 ⟨2, 3, 4⟩, 50 - 16 * 3)) :=
  ⟨by decide,
    (instance_record_layout 3 (by decide) ⟨⟨2, 3, 4⟩, 1, 3⟩ ⟨5, 6, 7⟩).2.1.1,
    (instance_record_layout 3 (by decide) ⟨⟨2, 3, 4⟩, 1, 3⟩ ⟨5, 6, 7⟩).2.1.2,
    by decide, by decide,
    ((instance_record_layout 3 (by decide) ⟨⟨2, 3, 4⟩, 1, 3⟩ ⟨5, 6, 7⟩).2.2.2.2.2.2.2.1
      Renderer.fillBuffers 50 (by decide)).1 (by decide)⟩

/-! ## Deferred actions -/

/-- C18 (the code at a failing input): with the deferred actions `A` (done), `B`
(done), `C` (not done), `doDeferedActions` runs the callbacks of `A` and `B` once
each, but its second loop erases position 0 and then position 1 of the already
shortened vector: the finished action `B` stays in `deferedActions` and the
unfinished action `C` is removed, where exactly `C` should have stayed. -/
theorem doDeferedActions_two_done :
    Controls.doDeferedActions [⟨true, 1⟩, ⟨true, 2⟩, ⟨false, 3⟩] =
      some ([⟨true, 2⟩], [1, 2]) ∧
    ([⟨true, 2⟩] : List DeferedAction) ≠
      ([⟨true, 1⟩, ⟨true, 2⟩, ⟨false, 3⟩] : List DeferedAction).filter (fun a => !a.isDone) := by
  decide

/-! ## Ray casting -/

theorem rayCast_step_pos (c : ℚ) (h : c > 0) : (if c > 0 then (1 : Int) else -1) = 1 := by
  rw [if_pos h]

theorem rayCast_step_nonpos (c : ℚ) (h : c ≤ 0) : (if c > 0 then (1 : Int) else -1) = -1 := by
  rw [if_neg (not_lt.mpr h)]

/-- C13 (as stated, refuted): with front direction `(1,0,0)` the axes `y` and `z`, whose
components are exactly zero, get the step `-1`, and the whole run is the same as
with front direction `(1,-1,-1)`: a zero component is not set apart from a
negative one. -/
theorem rayCast_zero_step_counterexample :
    (World.empty.rayCast ⟨⟨0, 0, 0⟩, ⟨1, 0, 0⟩⟩ ⟨0, 0, 0, false, ⟨0, 0, 0⟩⟩).stepY = -1 ∧
    (World.empty.rayCast ⟨⟨0, 0, 0⟩, ⟨1, 0, 0⟩⟩ ⟨0, 0, 0, false, ⟨0, 0, 0⟩⟩).stepZ = -1 ∧
    World.empty.rayCast ⟨⟨0, 0, 0⟩, ⟨1, 0, 0⟩⟩ ⟨0, 0, 0, false, ⟨0, 0, 0⟩⟩ =
      World.empty.rayCast ⟨⟨0, 0, 0⟩, ⟨1, -1, -1⟩⟩ ⟨0, 0, 0, false, ⟨0, 0, 0⟩⟩ := by
  have h0 : (if (0 : ℚ) > 0 then (1 : Int) else -1) = -1 := rayCast_step_nonpos 0 (le_refl 0)
  have hm : (if (-1 : ℚ) > 0 then (1 : Int) else -1) = -1 := rayCast_step_nonpos (-1) (by norm_num)
  refine ⟨h0, h0, ?_⟩
  simp only [World.rayCast, h0, hm]

/-- C13 (amended): in `rayCast` the step of an axis is `+1` when the matching component
of the camera's front direction is positive and `-1` otherwise, so it is `-1` for
a negative component and also for a component of exactly zero, whatever the
world, the camera position and the other components are. -/
theorem rayCast_steps (w : World) (camera : Camera) (rv : Position) :
    ((camera.front.x > 0 → (w.rayCast camera rv).stepX = 1) ∧
      (camera.front.x < 0 → (w.rayCast camera rv).stepX = -1) ∧
      (camera.front.x = 0 → (w.rayCast camera rv).stepX = -1)) ∧
    ((camera.front.y > 0 → (w.rayCast camera rv).stepY = 1) ∧
      (camera.front.y < 0 → (w.rayCast camera rv).stepY = -1) ∧
      (camera.front.y = 0 → (w.rayCast camera rv).stepY = -1)) ∧
    ((camera.front.z > 0 → (w.rayCast camera rv).stepZ = 1) ∧
      (camera.front.z < 0 → (w.rayCast camera rv).stepZ = -1) ∧
      (camera.front.z = 0 → (w.rayCast camera rv).stepZ = -1)) :=
  ⟨⟨fun h => rayCast_step_pos _ h, fun h => rayCast_step_nonpos _ (le_of_lt h),
      fun h => rayCast_step_nonpos _ (le_of_eq h)⟩,
    ⟨fun h => rayCast_step_pos _ h, fun h => rayCast_step_nonpos _ (le_of_lt h),
      fun h => rayCast_step_nonpos _ (le_of_eq h)⟩,
    ⟨fun h => rayCast_step_pos _ h, fun h => rayCast_step_nonpos _ (le_of_lt h),
      fun h => rayCast_step_nonpos _ (le_of_eq h)⟩⟩

/-- Instance of the amended C13: the front direction `(1, -1/2, 0)`. -/
theorem rayCast_steps_witness :
    ((1 : ℚ) > 0 ∧ (-1 / 2 : ℚ) < 0 ∧ (0 : ℚ) = 0) ∧
    (World.empty.rayCast ⟨⟨0, 0, 0⟩, ⟨1, -1 / 2, 0⟩⟩ ⟨0, 0, 0, false, ⟨0, 0, 0⟩⟩).stepX = 1 ∧
    (World.empty.rayCast ⟨⟨0, 0, 0⟩, ⟨1, -1 / 2, 0⟩⟩ ⟨0, 0, 0, false, ⟨0, 0, 0⟩⟩).stepY = -1 ∧
    (World.empty.rayCast ⟨⟨0, 0, 0⟩, ⟨1, -1 / 2, 0⟩⟩ ⟨0, 0, 0, false, ⟨0, 0, 0⟩⟩).stepZ = -1 :=
  ⟨⟨by norm_num, by norm_num, rfl⟩,
    (rayCast_steps World.empty ⟨⟨0, 0, 0⟩, ⟨1, -1 / 2, 0⟩⟩ ⟨0, 0, 0, false, ⟨0, 0, 0⟩⟩).1.1
      (by norm_num),
    (rayCast_steps World.empty ⟨⟨0, 0, 0⟩, ⟨1, -1 / 2, 0⟩⟩ ⟨0, 0, 0, false, ⟨0, 0, 0⟩⟩).2.1.2.1
      (by norm_num),
    (rayCast_steps World.empty ⟨⟨0, 0, 0⟩, ⟨1, -1 / 2, 0⟩⟩ ⟨0, 0, 0, false, ⟨0, 0, 0⟩⟩).2.2.2.2
      rfl⟩

/-! ## Looking up a voxel -/

theorem truncToInt_intCast (n : Int) : truncToInt (n : ℚ) = n := by
  unfold truncToInt
  split_ifs
  · exact Int.floor_intCast n
  · exact Int.ceil_intCast n

/-- C1: for in-range coordinates and a block type other than `-1`, `addCube(x,y,z,t)`
followed by `getVoxel(x,y,z)` returns a cube (not `NULL`) with position `(x,y,z)`,
block type `t` and the slot this `addCube` assigned, which is the value of the
counter before the call. -/
theorem addCube_then_getVoxel (w : World) (x y z t : Int)
    (hx : 0 ≤ x ∧ x < 128) (hy : 0 ≤ y ∧ y < 128) (hz : 0 ≤ z ∧ z < 128) (ht : t ≠ -1) :
    ∃ w1 : World, w.addCube x y z t = Except.ok w1 ∧
      w1.getVoxel (x : ℚ) (y : ℚ) (z : ℚ) = (w1, some ⟨⟨x, y, z⟩, t, w.size⟩) := by
  have hr : inRange 128 x y z := ⟨hx, hy, hz⟩
  refine ⟨_, addCube_inRange w x y z t hr, ?_⟩
  unfold World.getVoxel
  rw [truncToInt_intCast x, truncToInt_intCast y, truncToInt_intCast z]
  simp [Octree.at?, hr, ht, World.size]

/-- Instance of C1: the cell `(2,3,4)` with block type 1 on the empty world. -/
theorem addCube_then_getVoxel_witness :
    (0 ≤ (2 : Int) ∧ (2 : Int) < 128) ∧ (0 ≤ (3 : Int) ∧ (3 : Int) < 128) ∧
    (0 ≤ (4 : Int) ∧ (4 : Int) < 128) ∧ (1 : Int) ≠ -1 ∧
    ∃ w1 : World, World.empty.addCube 2 3 4 1 = Except.ok w1 ∧
      w1.getVoxel ((2 : Int) : ℚ) ((3 : Int) : ℚ) ((4 : Int) : ℚ) =
        (w1, some ⟨⟨2, 3, 4⟩, 1, 0⟩) :=
  ⟨by decide, by decide, by decide, by decide,
    addCube_then_getVoxel World.empty 2 3 4 1 (by decide) (by decide) (by decide) (by decide)⟩

theorem getCubes_fold_none (w : World) :
    ∀ (l : List (Int × Int × Int)) (rv : List Cube),
      (∀ c ∈ l, inRange 128 c.1 c.2.1 c.2.2) →
      (∃ c ∈ l, w.occupied c ∧ ¬ (0 ≤ (w.cell c).order ∧ (w.cell c).order < rv.length)) →
      l.foldlM (fun rv c => w.getCubesBody c.1 c.2.1 c.2.2 rv) rv = none := by
  intro l
  induction l with
  | nil =>
    intro rv _ hbad
    obtain ⟨c, hc, _⟩ := hbad
    exact absurd hc (List.not_mem_nil c)
  | cons a l ih =>
    intro rv hin hbad
    have hinl : ∀ c ∈ l, inRange 128 c.1 c.2.1 c.2.2 := fun c hc => hin c (List.mem_cons_of_mem _ hc)
    rw [List.foldlM_cons, getCubesBody_inRange w a rv (hin a (List.mem_cons_self _ _))]
    obtain ⟨c, hc, hocc, hb⟩ := hbad
    by_cases ha : w.occupied a
    · rw [if_pos ha]
      by_cases hba : 0 ≤ (w.cell a).order ∧ (w.cell a).order < rv.length
      · rw [if_pos hba]
        have hcl : c ∈ l := by
          rcases List.mem_cons.mp hc with rfl | h
          · exact absurd hba hb
          · exact h
        exact ih _ hinl ⟨c, hcl, hocc, by rw [List.length_set]; exact hb⟩
      · rw [if_neg hba]
        rfl
    · rw [if_neg ha]
      have hcl : c ∈ l := by
        rcases List.mem_cons.mp hc with rfl | h
        · exact absurd hocc ha
        · exact h
      exact ih _ hinl ⟨c, hcl, hocc, hb⟩

theorem getCubes_overflow (w : World) (c : Int × Int × Int) (hin : inRange 128 c.1 c.2.1 c.2.2)
    (hocc : w.occupied c) (hord : 128 ≤ (w.cell c).order) : w.getCubes = none := by
  rw [getCubes_eq_foldlM]
  apply getCubes_fold_none w _ _ (fun c hc => (mem_coords 128 c).mp hc)
  refine ⟨c, (mem_coords 128 c).mpr hin, hocc, ?_⟩
  rw [List.length_replicate]
  omega

theorem getCubes_single :
    ∃ w : World, (World.fresh none).addCubes [((2, 3, 4, 1) : Op)] = Except.ok w ∧
      w.cubeCount = 1 ∧
      (∀ c : Int × Int × Int, w.cell c = if c = (2, 3, 4) then ⟨⟨2, 3, 4⟩, 1, 0⟩ else Cube.emptyValue) ∧
      w.getCubes = some (⟨⟨2, 3, 4⟩, 1, 0⟩ :: List.replicate 127 Cube.zero) := by
  obtain ⟨w, hw⟩ := addCubes_inRange [((2, 3, 4, 1) : Op)] (World.fresh none) (by decide)
  obtain ⟨w1, h1, h2⟩ := addCubes_cons_inv hw
  cases h2
  have h1c : (World.fresh none).addCube 2 3 4 1 = Except.ok w := h1
  have hcell : ∀ c : Int × Int × Int,
      w.cell c = if c = (2, 3, 4) then ⟨⟨2, 3, 4⟩, 1, 0⟩ else Cube.emptyValue :=
    fun c => addCube_ok_cell h1c c
  have hcount : w.cubeCount = 1 := addCube_ok_size h1c
  have hinv := slotInv_addCubes _ (slotInv_fresh none) hw
  obtain ⟨rv, hrv, hlen, hocc, hfree⟩ := getCubes_spec w hinv (by rw [hcount]; decide)
  have ho : w.occupied (2, 3, 4) := by
    unfold World.occupied
    rw [hcell, if_pos rfl]
    decide
  have hcube : ∀ c : Int × Int × Int, w.occupied c → w.cell c = ⟨⟨2, 3, 4⟩, 1, 0⟩ := by
    intro c hc
    by_cases h0 : c = (2, 3, 4)
    · rw [hcell, if_pos h0]
    · exfalso
      apply hc
      rw [hcell, if_neg h0]
      rfl
  refine ⟨w, hw, hcount, hcell, ?_⟩
  rw [hrv]
  congr 1
  apply List.ext_getElem?
  intro i
  cases i with
  | zero =>
    have h := hocc (2, 3, 4) ho
    rw [hcube _ ho] at h
    rw [List.getElem?_cons_zero]
    exact h
  | succ j =>
    rw [List.getElem?_cons_succ]
    by_cases hj : j + 1 < 128
    · rw [hfree (j + 1) hj (fun c hc => by rw [hcube c hc]; simp only; omega),
        List.getElem?_replicate_of_lt (by omega)]
    · rw [List.getElem?_eq_none (by omega), List.getElem?_eq_none (by rw [List.length_replicate]; omega)]

/-- C5 (the code at failing inputs): after the single call `addCube(2,3,4,1)` on a fresh
world, with one cell occupied, `getCubes()` returns 128 entries: the voxel followed
by 127 value-initialised cubes, which are the cubes of no occupied cell, so the
result is not the list of the occupied voxels.  After 129 calls on pairwise
distinct cells the loop stores a cube at index 128 of the 128 entries, outside
the vector, and has no defined result. -/
theorem getCubes_sized_by_edge :
    (∃ (w : World) (rv : List Cube),
      (World.fresh none).addCubes [((2, 3, 4, 1) : Op)] = Except.ok w ∧ w.getCubes = some rv ∧
      rv = ⟨⟨2, 3, 4⟩, 1, 0⟩ :: List.replicate 127 Cube.zero ∧ rv.length = 128 ∧
      w.occupiedCount = 1 ∧ ¬ w.IsSnapshot rv) ∧
    (∃ w : World, (World.fresh none).addCubes (distinctOps 129) = Except.ok w ∧
      w.occupiedCount = 129 ∧ w.getCubes = none) := by
  constructor
  · obtain ⟨w, hw, _, hcell, hrv⟩ := getCubes_single
    have hcnt := occupiedCount_addCubes_distinct [((2, 3, 4, 1) : Op)] hw (by decide) (by decide)
      (fun op _ ho => ho rfl)
    rw [occupiedCount_fresh] at hcnt
    refine ⟨w, _, hw, hrv, rfl, by rw [List.length_cons, List.length_replicate], hcnt, ?_⟩
    intro hsnap
    have hz : Cube.zero ∈ (⟨⟨2, 3, 4⟩, 1, 0⟩ : Cube) :: List.replicate 127 Cube.zero :=
      List.mem_cons_of_mem _ (List.mem_replicate.mpr ⟨by decide, rfl⟩)
    obtain ⟨c, _, ho, hc⟩ := (hsnap.1 Cube.zero).mp hz
    rw [hcell] at hc
    unfold World.occupied at ho
    rw [hcell] at ho
    by_cases h0 : c = (2, 3, 4)
    · rw [if_pos h0] at hc
      exact absurd hc (by decide)
    · rw [if_neg h0] at ho
      exact ho rfl
  · obtain ⟨w, hw⟩ := addCubes_inRange (distinctOps 129) (World.fresh none)
      (distinctOps_inRange 129 (by decide))
    have hcnt := occupiedCount_addCubes_distinct (distinctOps 129) hw (distinctOps_nodup _)
      (distinctOps_blockType _) (fun op _ ho => ho rfl)
    rw [occupiedCount_fresh, distinctOps_length, Nat.zero_add] at hcnt
    have hop : (distinctOps 129)[128]? = some ((0, 1, 0, 1) : Op) := by
      unfold distinctOps
      rw [List.getElem?_map, List.getElem?_range (by decide)]
      rfl
    have hcell := addCubes_cell_distinct (distinctOps 129) hw (distinctOps_nodup _) 128 _ hop
    have hcell2 : w.cell (0, 1, 0) = ⟨⟨0, 1, 0⟩, 1, 128⟩ := hcell
    refine ⟨w, hw, hcnt, getCubes_overflow w (0, 1, 0) (by decide) ?_ ?_⟩
    · unfold World.occupied
      rw [hcell2]
      decide
    · rw [hcell2]

/-- C6 (the code at a failing input): for the world built by the single call
`addCube(2,3,4,1)`, with no cell written twice, `getCubes()` has 128 entries, and
replaying `addCube` for each of them yields a world of size 128 in which the cell
`(0,0,0)` is occupied with block type 0 and slot 127, although the original world
has size 1 and its cell `(0,0,0)` is empty. -/
theorem replay_not_identical :
    ∃ (w : World) (rv : List Cube) (w1 : World),
      (World.fresh none).addCubes [((2, 3, 4, 1) : Op)] = Except.ok w ∧
      w.getCubes = some rv ∧ World.replay rv = Except.ok w1 ∧
      w.size = 1 ∧ ¬ w.occupied (0, 0, 0) ∧
      w1.size = 128 ∧ w1.occupied (0, 0, 0) ∧ w1.cell (0, 0, 0) = ⟨⟨0, 0, 0⟩, 0, 127⟩ ∧
      w1.cell (2, 3, 4) = w.cell (2, 3, 4) := by
  obtain ⟨w, hw, hcount, hcell, hrv⟩ := getCubes_single
  have hsplit : (⟨⟨2, 3, 4⟩, 1, 0⟩ :: List.replicate 127 Cube.zero : List Cube).map Cube.toOp =
      (((2, 3, 4, 1) : Op) :: List.replicate 126 ((0, 0, 0, 0) : Op)) ++ [((0, 0, 0, 0) : Op)] := by
    rw [List.map_cons, List.map_replicate, List.cons_append, ← List.replicate_succ']
    rfl
  have hrange : ∀ op ∈ (((2, 3, 4, 1) : Op) :: List.replicate 126 ((0, 0, 0, 0) : Op)) ++
      [((0, 0, 0, 0) : Op)], Op.inRange op := by
    intro op hop
    rw [List.mem_append, List.mem_cons, List.mem_singleton] at hop
    rcases hop with (rfl | hop) | rfl
    · decide
    · rw [List.eq_of_mem_replicate hop]
      decide
    · decide
  obtain ⟨w1, hw1⟩ := addCubes_inRange _ World.empty hrange
  obtain ⟨w0, h0, hlast⟩ := addCubes_concat_inv _ _ hw1
  have hlast1 : w0.addCube 0 0 0 0 = Except.ok w1 := hlast
  have hc0 : w0.cubeCount = 127 := by
    rw [addCubes_size _ h0, List.length_cons, List.length_replicate]
    rfl
  have hcell1 : w1.cell (0, 0, 0) = ⟨⟨0, 0, 0⟩, 0, 127⟩ := by
    rw [addCube_ok_cell hlast1 (0, 0, 0), if_pos rfl, hc0]
  have hsize1 : w1.size = 128 := by
    unfold World.size
    rw [addCube_ok_size hlast1, hc0]
    rfl
  have h234 : w1.cell (2, 3, 4) = ⟨⟨2, 3, 4⟩, 1, 0⟩ := by
    rw [addCube_ok_cell hlast1 (2, 3, 4), if_neg (by decide)]
    obtain ⟨wa, ha, hb⟩ := addCubes_cons_inv h0
    have ha1 : World.empty.addCube 2 3 4 1 = Except.ok wa := ha
    rw [addCubes_cell_untouched _ hb (2, 3, 4) (by
      rw [List.map_replicate]
      intro hmem
      exact absurd (List.eq_of_mem_replicate hmem) (by decide)),
      addCube_ok_cell ha1 (2, 3, 4), if_pos rfl]
    rfl
  refine ⟨w, _, w1, hw, hrv, ?_, hcount, ?_, hsize1, ?_, hcell1, ?_⟩
  · unfold World.replay
    rw [hsplit]
    exact hw1
  · unfold World.occupied
    rw [hcell, if_neg (by decide)]
    exact fun h => h rfl
  · unfold World.occupied
    rw [hcell1]
    decide
  · rw [h234, hcell, if_pos rfl]

/-! ## The result of `World::rayCast` -/

/-- C12 (the code at the failing input): in the world where only the cell `(5,0,0)` is
occupied, `rayCast` with camera position `(0,0,0)` and front `(1,0,0)` computes
the steps `(1,-1,-1)` and returns its local `Position` as the storage held it on
entry, whatever that was: the result is the hit `(5,0,0)` with normal `(-1,0,0)`
only if the uninitialised local already held exactly that. -/
theorem rayCast_returns_uninitialised :
    ∃ w : World, World.empty.addCube 5 0 0 1 = Except.ok w ∧
      (∀ c : Int × Int × Int, w.occupied c ↔ c = (5, 0, 0)) ∧
      ∀ rv : Position,
        (w.rayCast ⟨⟨0, 0, 0⟩, ⟨1, 0, 0⟩⟩ rv).rv = rv ∧
        (w.rayCast ⟨⟨0, 0, 0⟩, ⟨1, 0, 0⟩⟩ rv).stepX = 1 ∧
        (w.rayCast ⟨⟨0, 0, 0⟩, ⟨1, 0, 0⟩⟩ rv).stepY = -1 ∧
        (w.rayCast ⟨⟨0, 0, 0⟩, ⟨1, 0, 0⟩⟩ rv).stepZ = -1 ∧
        ((w.rayCast ⟨⟨0, 0, 0⟩, ⟨1, 0, 0⟩⟩ rv).rv = ⟨5, 0, 0, true, ⟨-1, 0, 0⟩⟩ ↔
          rv = ⟨5, 0, 0, true, ⟨-1, 0, 0⟩⟩) := by
  obtain ⟨w, hw⟩ : ∃ w, World.empty.addCube 5 0 0 1 = Except.ok w :=
    ⟨_, addCube_inRange World.empty 5 0 0 1 (by decide)⟩
  refine ⟨w, hw, ?_, ?_⟩
  · intro c
    unfold World.occupied
    rw [addCube_ok_cell hw c]
    by_cases hc : c = (5, 0, 0)
    · rw [if_pos hc]
      exact ⟨fun _ => hc, fun _ => by decide⟩
    · rw [if_neg hc]
      exact ⟨fun h => absurd rfl h, fun h => absurd h hc⟩
  · intro rv
    exact ⟨rfl, rayCast_step_pos 1 (by norm_num), rayCast_step_nonpos 0 (le_refl 0),
      rayCast_step_nonpos 0 (le_refl 0), Iff.rfl⟩

/-! ## Debouncing -/

theorem debounce_fst (rnd : ℚ → ℚ) (curTime lastTime : ℚ) :
    (debounce rnd curTime lastTime).1 = true ↔ rnd (curTime - lastTime) > DEBOUNCE_TIME := by
  simp only [debounce, decide_eq_true_eq]

theorem debounce_tenth_le : (1 / 10 : ℚ) ≤ DEBOUNCE_TIME := by
  unfold DEBOUNCE_TIME
  norm_num

theorem debounceCalls_close (rnd : ℚ → ℚ) (hmono : Monotone rnd)
    (hfix : rnd DEBOUNCE_TIME = DEBOUNCE_TIME) (clock : List ℚ) :
    ∀ lastTime : ℚ, (lastTime :: clock).Chain' (fun a b => b - a ≤ DEBOUNCE_TIME) →
      debounceCalls rnd lastTime clock = List.replicate clock.length false := by
  induction clock with
  | nil =>
    intro _ _
    rfl
  | cons t ts ih =>
    intro lastTime hch
    rw [List.chain'_cons] at hch
    have hle : rnd (t - lastTime) ≤ DEBOUNCE_TIME := by
      have := hmono hch.1
      rwa [hfix] at this
    have hfalse : (debounce rnd t lastTime).1 = false := by
      rw [Bool.eq_false_iff]
      intro htrue
      exact absurd hle (not_le.mpr ((debounce_fst rnd t lastTime).mp htrue))
    simp only [debounceCalls, hfalse, List.length_cons, List.replicate_succ]
    congr 1
    exact ih t hch.2

/-- C19: `debounce(lastTime)` returns true exactly when the clock value minus
`lastTime`, as the double subtraction yields it, is strictly greater than
`DEBOUNCE_TIME` (the double 0.1), and in either case stores the clock value in
`lastTime`.  Hence in any sequence of calls on the same timestamp whose
consecutive clock readings are at most `DEBOUNCE_TIME` apart, and so in
particular at most one tenth apart, the first call returns what `debounce` gives
for it and every later call returns false: one result per call.  The rounding of
the subtraction is any monotone rounding that keeps `DEBOUNCE_TIME`. -/
theorem debounce_spec :
    (∀ (rnd : ℚ → ℚ) (curTime lastTime : ℚ),
      ((debounce rnd curTime lastTime).1 = true ↔ rnd (curTime - lastTime) > DEBOUNCE_TIME) ∧
      (debounce rnd curTime lastTime).2 = curTime) ∧
    (∀ a b : ℚ, b - a ≤ 1 / 10 → b - a ≤ DEBOUNCE_TIME) ∧
    (∀ (rnd : ℚ → ℚ), Monotone rnd → rnd DEBOUNCE_TIME = DEBOUNCE_TIME →
      ∀ (lastTime first : ℚ) (later : List ℚ),
        (first :: later).Chain' (fun a b => b - a ≤ DEBOUNCE_TIME) →
        debounceCalls rnd lastTime (first :: later) =
          (debounce rnd first lastTime).1 :: List.replicate later.length false) := by
  refine ⟨fun rnd curTime lastTime => ⟨debounce_fst rnd curTime lastTime, rfl⟩,
    fun a b h => le_trans h debounce_tenth_le, ?_⟩
  intro rnd hmono hfix lastTime first later hch
  simp only [debounceCalls]
  congr 1
  exact debounceCalls_close rnd hmono hfix later first hch

/-- Instance of C19: after a last time of 0 the clock readings 5, 5.0625 and 5.125, all
doubles whose differences are exact, with the subtraction not rounding: the first
call returns true and the two later ones false. -/
theorem debounce_spec_witness :
    Monotone (fun q : ℚ => q) ∧ (fun q : ℚ => q) DEBOUNCE_TIME = DEBOUNCE_TIME ∧
    ([5, 81 / 16, 41 / 8] : List ℚ).Chain' (fun a b => b - a ≤ DEBOUNCE_TIME) ∧
    debounceCalls (fun q : ℚ => q) 0 [5, 81 / 16, 41 / 8] = [true, false, false] := by
  have hch : ([5, 81 / 16, 41 / 8] : List ℚ).Chain' (fun a b => b - a ≤ DEBOUNCE_TIME) := by
    simp only [List.chain'_cons, List.chain'_singleton, and_true, DEBOUNCE_TIME]
    constructor <;> norm_num
  have hfirst : (debounce (fun q : ℚ => q) 5 0).1 = true := by
    rw [debounce_fst]
    unfold DEBOUNCE_TIME
    norm_num
  have h := debounce_spec.2.2 (fun q : ℚ => q) (fun _ _ hab => hab) rfl 0 5 [81 / 16, 41 / 8] hch
  rw [hfirst] at h
  exact ⟨fun _ _ hab => hab, rfl, hch, h⟩

end HackMatrix
